import Mathlib

/-!
Verification of the podcast-insights pipeline against its specification.

The development shallowly embeds the persistent store (`database.py`), the
episode pipeline (`processors.py`), the polling orchestrator (`watcher.py`),
and the utility layer (`utils.py`).  Stateful code is modelled by explicit
state passing over `PState` (database rows, filesystem contents, and an
observable event trace); SQL tables become lists of rows; external effects
(the network and the transcription/insights tools) are oracle fields of `Env`.
-/

set_option maxRecDepth 10000

namespace PodcastInsights

/-! ## Data model: episode rows (the `episodes` table of `database.py`) -/

/-- One row of the `episodes` table (`database.py`, `init_db`).  The
`updated_at` column is wall-clock metadata used by no logic and is omitted;
`first_seen_at` timestamps are modelled as naturals (insertion time). -/
structure EpRow where
  id : Nat
  feedId : Nat
  guid : Option String
  audioUrl : Option String
  title : String
  pubDate : Option String
  episodeDir : String
  audioPath : String
  transcriptPath : String
  insightsPath : String
  status : String
  error : Option String
  firstSeenAt : Nat
deriving DecidableEq, Repr

/-- `get_episode_by_id` (`database.py` line 154) modelled as a lookup: first
row whose `id` matches; `none` models the raised `KeyError`. -/
def get_episode_by_id? (db : List EpRow) (epId : Nat) : Option EpRow :=
  db.find? (fun r => r.id == epId)

/-- `DB.update_episode_status` (`database.py` lines 146-152): one SQL UPDATE
setting `status`, `error` and the timestamp for the matching id.  The `error`
argument defaults to `none`, exactly as the Python default `error=None`
translates to writing NULL. -/
def update_episode_status (db : List EpRow) (epId : Nat) (status : String)
    (error : Option String := none) : List EpRow :=
  db.map (fun r => if r.id == epId then { r with status := status, error := error } else r)

/-- The field values supplied to `DB.insert_episode` (`database.py` lines
111-144) by the ingestors. -/
structure EpisodeFields where
  feedId : Nat
  guid : Option String
  audioUrl : Option String
  title : String
  pubDate : Option String
  episodeDir : String
  audioPath : String
  transcriptPath : String
  insightsPath : String
deriving DecidableEq, Repr

/-- The row `insert_episode` appends: initial status `new`, NULL error
(`VALUES (..., 'new', NULL, ...)`). -/
def new_row (epId now : Nat) (f : EpisodeFields) : EpRow :=
  { id := epId, feedId := f.feedId, guid := f.guid, audioUrl := f.audioUrl,
    title := f.title, pubDate := f.pubDate, episodeDir := f.episodeDir,
    audioPath := f.audioPath, transcriptPath := f.transcriptPath,
    insightsPath := f.insightsPath, status := "new", error := none,
    firstSeenAt := now }

/-- Whether inserting `f` would violate one of the UNIQUE constraints
`UNIQUE(feed_id, guid)` / `UNIQUE(feed_id, audio_url)` (or the `id` primary
key) against an existing row.  SQLite UNIQUE constraints never fire on NULL
values, hence the `isSome` guards. -/
def insert_conflict (r : EpRow) (epId : Nat) (f : EpisodeFields) : Bool :=
  r.id == epId ||
    (r.feedId == f.feedId &&
      ((f.guid.isSome && r.guid == f.guid) ||
       (f.audioUrl.isSome && r.audioUrl == f.audioUrl)))

/-- `DB.insert_episode` (`database.py` lines 111-144): `INSERT OR IGNORE`
with initial status `new` and NULL error.  On a uniqueness conflict the
statement is a silent no-op.  `epId` is the rowid SQLite would assign and
`now` the insertion timestamp. -/
def insert_episode (db : List EpRow) (epId : Nat) (now : Nat) (f : EpisodeFields) : List EpRow :=
  if db.any (fun r => insert_conflict r epId f) then db
  else db ++ [new_row epId now f]

/-- The episode-table states reachable through the store interface: the empty
table, episode insertion, and status updates.  (No operation of `database.py`
deletes episode rows or rewrites their keys.) -/
inductive StoreReachable : List EpRow → Prop
  | init : StoreReachable []
  | insert {db : List EpRow} (epId now : Nat) (f : EpisodeFields) :
      StoreReachable db → StoreReachable (insert_episode db epId now f)
  | update {db : List EpRow} (epId : Nat) (status : String) (error : Option String) :
      StoreReachable db → StoreReachable (update_episode_status db epId status error)

/-- Fields of a sample feed entry (used for the concrete C2 check). -/
def c2_fields : EpisodeFields :=
  { feedId := 7, guid := some "g1", audioUrl := some "http-a", title := "ep",
    pubDate := some "2024-01-02", episodeDir := "d", audioPath := "a",
    transcriptPath := "t", insightsPath := "i" }

/-- The same entry seen a second time (same guid, same audio url, fresh paths). -/
def c2_fields_again : EpisodeFields :=
  { feedId := 7, guid := some "g1", audioUrl := some "http-a", title := "ep again",
    pubDate := some "2024-01-02", episodeDir := "d2", audioPath := "a2",
    transcriptPath := "t2", insightsPath := "i2" }

/-- A one-row store obtained by ingesting `c2_fields` once. -/
def c2_db : List EpRow := [new_row 1 0 c2_fields]

/-! ## Pipeline state (`processors.py`)

The pipeline mutates the episode table and the filesystem, and performs
observable external actions.  `PState` carries both, together with an
append-only event trace recording every status write, observer callback,
network fetch attempt, backoff sleep, and external tool invocation. -/

/-- One observable action of the pipeline. -/
inductive Event where
  | statusWrite (epId : Nat) (status : String) (error : Option String)
  | callbackNote (stage : String) (title : String)
  | netAttempt (url : Option String)
  | sleepFor (seconds : Nat)
  | transcribeTool
  | insightsTool
deriving DecidableEq, Repr

/-- Pipeline-visible state: the episode table, the set of existing files
(paths), and the event trace. -/
structure PState where
  db : List EpRow
  fs : List String
  events : List Event
deriving DecidableEq, Repr

/-- External-world oracle: per-attempt download outcomes (`none` = the HTTP
fetch and size check succeed, `some m` = the attempt raises with message `m`),
and the outcome of each external tool run (`Except.error` = non-zero exit with
captured stderr, `Except.ok created` = zero exit having created the given
files).  Mirrors `AppConfig.runtime` for the retry settings. -/
structure Env where
  maxRetries : Nat
  retryBackoffSeconds : Nat
  dlOutcomes : Nat → Option String
  transcribeOut : Except String (List String)
  insightsOut : Except String (List String)

/-- `update_episode_status` plus its trace entry: every status write of the
pipeline goes through this helper (the Python calls
`thread_db.update_episode_status(...)` at exactly these points). -/
def writeStatus (st : PState) (epId : Nat) (status : String)
    (error : Option String := none) : PState :=
  { st with db := update_episode_status st.db epId status error,
            events := st.events ++ [Event.statusWrite epId status error] }

/-- Appends an observer-callback event (`self.status_callback(stage, title)`). -/
def noteCallback (st : PState) (stage title : String) : PState :=
  { st with events := st.events ++ [Event.callbackNote stage title] }

/-- The message of the terminal download failure
(`RuntimeError(f"Failed to download after .. attempts: ..")`). -/
def dlFailMsg (retries : Nat) (lastErr : Option String) : String :=
  "Failed to download after " ++ toString retries ++ " attempts: " ++
    (match lastErr with | some m => m | none => "None")

/-- The retry loop of `_download_audio` (`processors.py` lines 214-235):
`attempt` is the 1-based attempt counter, `remaining` how many attempts are
left of `retries`.  A successful attempt streams the body, passes the size
check and atomically renames the temp file onto `dest`; a failed attempt
records the error and sleeps `backoff * attempt` seconds.  Exhaustion raises
the terminal failure carrying the last error. -/
def dlGo (outcomes : Nat → Option String) (url : Option String) (dest : String)
    (backoff retries : Nat) :
    Nat → Nat → Option String → PState → Except (String × PState) PState
  | _, 0, lastErr, st => .error (dlFailMsg retries lastErr, st)
  | attempt, remaining + 1, _, st =>
    match outcomes attempt with
    | none =>
        .ok { st with fs := dest :: st.fs,
                      events := st.events ++ [Event.netAttempt url] }
    | some msg =>
        dlGo outcomes url dest backoff retries (attempt + 1) remaining (some msg)
          { st with events := st.events ++ [Event.netAttempt url, Event.sleepFor (backoff * attempt)] }

/-- `_download_audio` (`processors.py` lines 197-235). -/
def download_audio (env : Env) (url : Option String) (dest : String) (st : PState) :
    Except (String × PState) PState :=
  dlGo env.dlOutcomes url dest env.retryBackoffSeconds env.maxRetries 1 env.maxRetries none st

/-- Download stage of `process_single_episode` (lines 150-153): skipped when
the audio file already exists, else status `downloading` is written and the
download performed. -/
def stage_download (env : Env) (epId : Nat) (row : EpRow) (st : PState) :
    Except (String × PState) PState :=
  if st.fs.contains row.audioPath then .ok st
  else download_audio env row.audioUrl row.audioPath (writeStatus st epId "downloading")

/-- Transcription stage (lines 159-164 together with `_run_transcription`):
skipped when the transcript exists; else status `transcribing` is written,
the external command runs (non-zero exit raises with the captured stderr),
and the transcript's existence is verified afterwards. -/
def stage_transcribe (env : Env) (epId : Nat) (row : EpRow) (st : PState) :
    Except (String × PState) PState :=
  if st.fs.contains row.transcriptPath then .ok st
  else
    let st1 := writeStatus st epId "transcribing"
    match env.transcribeOut with
    | .error stderrText =>
        .error ("Transcription failed: " ++ stderrText,
                { st1 with events := st1.events ++ [Event.transcribeTool] })
    | .ok created =>
        let st2 := { st1 with
          fs := created ++ st1.fs,
          events := st1.events ++ [Event.transcribeTool] }
        if st2.fs.contains row.transcriptPath then .ok st2
        else .error ("Transcription did not produce expected file: " ++ row.transcriptPath, st2)

/-- Insights stage (lines 170-175 together with `_run_insights`): analogous
to transcription with status `analyzing`. -/
def stage_insights (env : Env) (epId : Nat) (row : EpRow) (st : PState) :
    Except (String × PState) PState :=
  if st.fs.contains row.insightsPath then .ok st
  else
    let st1 := writeStatus st epId "analyzing"
    match env.insightsOut with
    | .error stderrText =>
        .error ("Insights extraction failed: " ++ stderrText,
                { st1 with events := st1.events ++ [Event.insightsTool] })
    | .ok created =>
        let st2 := { st1 with
          fs := created ++ st1.fs,
          events := st1.events ++ [Event.insightsTool] }
        if st2.fs.contains row.insightsPath then .ok st2
        else .error ("Insights extraction did not produce expected file: " ++ row.insightsPath, st2)

/-- The message of the `KeyError` raised by `get_episode_by_id`. -/
def key_error_msg (epId : Nat) : String := "Episode not found: " ++ toString epId

/-- The protected body of `process_single_episode` (`processors.py` lines
138-182): the three artifact-gated stages, each followed by its unconditional
"done" sub-state write, with observer callbacks before each stage and after
completion. -/
def run_full_body (env : Env) (epId : Nat) (row : EpRow) (st : PState) :
    Except (String × PState) PState :=
  match stage_download env epId row (noteCallback st "downloading" row.title) with
  | .error e => .error e
  | .ok s1 =>
    match stage_transcribe env epId row
        (noteCallback (writeStatus s1 epId "downloaded") "transcribing" row.title) with
    | .error e => .error e
    | .ok s2 =>
      match stage_insights env epId row
          (noteCallback (writeStatus s2 epId "transcribed") "analyzing" row.title) with
      | .error e => .error e
      | .ok s3 => .ok (noteCallback (writeStatus s3 epId "done") "done" row.title)

/-- `EpisodeProcessor.process_single_episode` (`processors.py` lines 132-195):
runs the full pipeline for one episode, catching any exception at the episode
boundary, recording it as status `error` with the message, and returning the
`(success, message)` pair. -/
def process_single_episode (env : Env) (st : PState) (epId : Nat) :
    (Bool × Option String) × PState :=
  match get_episode_by_id? st.db epId with
  | none =>
      let msg := key_error_msg epId
      ((false, some msg), writeStatus st epId "error" (some msg))
  | some row =>
      match run_full_body env epId row st with
      | .ok stF => ((true, none), stF)
      | .error (msg, stE) => ((false, some msg), writeStatus stE epId "error" (some msg))

/-- Sequential processing of a list of episodes (the bulk/driver loops call
`process_single_episode` once per episode, regardless of earlier failures). -/
def process_sequential (env : Env) (st : PState) :
    List Nat → List (Bool × Option String) × PState
  | [] => ([], st)
  | epId :: rest =>
      let (r, st1) := process_single_episode env st epId
      let (rs, st2) := process_sequential env st1 rest
      (r :: rs, st2)

/-- The state the full pipeline is expected to leave behind when all three
artifacts already exist: three bare status writes (with their callbacks) and
no filesystem or external activity. -/
def expected_done_state (st : PState) (epId : Nat) (row : EpRow) : PState :=
  { db := update_episode_status (update_episode_status
      (update_episode_status st.db epId "downloaded") epId "transcribed") epId "done",
    fs := st.fs,
    events := st.events ++
      [Event.callbackNote "downloading" row.title,
       Event.statusWrite epId "downloaded" none,
       Event.callbackNote "transcribing" row.title,
       Event.statusWrite epId "transcribed" none,
       Event.callbackNote "analyzing" row.title,
       Event.statusWrite epId "done" none,
       Event.callbackNote "done" row.title] }

/-! ## Trace bookkeeping -/

/-- The state carried by a pipeline step whether it succeeded or raised. -/
def stOf : Except (String × PState) PState → PState
  | .ok s => s
  | .error (_, s) => s

/-- `EvDelta P st st2` states that `st2`'s trace extends `st`'s by events all
satisfying `P` (the pipeline only appends to the trace). -/
def EvDelta (P : Event → Prop) (st st2 : PState) : Prop :=
  ∃ d, st2.events = st.events ++ d ∧ ∀ ev ∈ d, P ev

/-- Events `_download_audio` may emit: network attempts and backoff sleeps. -/
def isNetOrSleep : Event → Prop
  | .netAttempt _ => True
  | .sleepFor _ => True
  | _ => False

/-- The events of `k` consecutive failed download attempts starting at
1-based attempt number `a`: each failed attempt fetches once and then sleeps
`b * attemptNumber` seconds. -/
def failEvts (url : Option String) (b : Nat) : Nat → Nat → List Event
  | _, 0 => []
  | a, k + 1 => Event.netAttempt url :: Event.sleepFor (b * a) :: failEvts url b (a + 1) k

/-- Number of network fetch attempts recorded in a trace. -/
def netCount (l : List Event) : Nat :=
  l.countP fun ev => match ev with | .netAttempt _ => true | _ => false

/-- The backoff sleeps of a trace, in order. -/
def sleepsOf (l : List Event) : List Nat :=
  l.filterMap fun ev => match ev with | .sleepFor k => some k | _ => none

/-- The value of `last_err` after running attempts `a, a+1, ...` for `k`
failed attempts (`lastErr` being its value beforehand). -/
def lastAfter (oc : Nat → Option String) : Nat → Nat → Option String → Option String
  | _, 0, lastErr => lastErr
  | a, k + 1, _ => lastAfter oc (a + 1) k (oc a)

/-! ## Concrete fixtures for the closed witnesses -/

/-- An environment whose network succeeds immediately and whose tools exit
zero without creating files. -/
def w_env : Env :=
  { maxRetries := 3, retryBackoffSeconds := 5, dlOutcomes := fun _ => none,
    transcribeOut := .ok [], insightsOut := .ok [] }

/-- A fully-processed episode row whose stored status was left at `error`. -/
def w_row : EpRow :=
  { id := 4, feedId := 7, guid := some "g", audioUrl := some "u", title := "T",
    pubDate := some "2024-05-05", episodeDir := "dir", audioPath := "dir/a.mp3",
    transcriptPath := "dir/a.transcript.md", insightsPath := "dir/a.insights.md",
    status := "error", error := some "old failure", firstSeenAt := 3 }

/-- A state where all three artifacts of `w_row` exist on disk. -/
def w_st : PState :=
  { db := [w_row], fs := ["dir/a.mp3", "dir/a.transcript.md", "dir/a.insights.md"],
    events := [] }

/-- A state holding `w_row` but an empty filesystem. -/
def w_st_empty : PState := { db := [w_row], fs := [], events := [] }

/-- A download environment failing attempts 1 and 2 and succeeding on 3. -/
def c4_env : Env :=
  { maxRetries := 3, retryBackoffSeconds := 5,
    dlOutcomes := fun i => if i < 3 then some "boom" else none,
    transcribeOut := .ok [], insightsOut := .ok [] }

/-- A pipeline environment whose network succeeds at once and whose tools
create the expected artifact files of `w_row`. -/
def w_env_ok : Env :=
  { maxRetries := 3, retryBackoffSeconds := 5, dlOutcomes := fun _ => none,
    transcribeOut := .ok ["dir/a.transcript.md"], insightsOut := .ok ["dir/a.insights.md"] }

/-- An empty starting state for the download fixtures. -/
def c4_st : PState := { db := [], fs := [], events := [] }

/-! ## Orchestrator selection (`watcher.py`) -/

/-- The status list of the SQL filter in `DB.iter_new_or_incomplete`
(`watcher.py` lines 268-291).  Note the three `error_*` sub-statuses (written
nowhere in the code) and the absence of plain `error`. -/
def incomplete_statuses : List String :=
  ["new", "downloading", "downloaded", "transcribing", "transcribed", "analyzing",
   "error_download", "error_transcribe", "error_insights"]

/-- `ORDER BY first_seen_at ASC`. -/
def by_first_seen (a b : EpRow) : Prop := a.firstSeenAt ≤ b.firstSeenAt

instance : DecidableRel by_first_seen := fun a b => Nat.decLe a.firstSeenAt b.firstSeenAt

instance : IsTotal EpRow by_first_seen :=
  ⟨fun a b => Nat.le_total a.firstSeenAt b.firstSeenAt⟩

instance : IsTrans EpRow by_first_seen :=
  ⟨fun _ _ _ hab hbc => Nat.le_trans hab hbc⟩

/-- The cap loop of `iter_new_or_incomplete`: a row in status `new` consumes
the remaining `max_new` budget and is dropped once the budget is exhausted;
any other selected row always passes. -/
def cap_new : Nat → List EpRow → List EpRow
  | _, [] => []
  | budget, r :: rs =>
    if r.status = "new" then
      match budget with
      | 0 => cap_new 0 rs
      | k + 1 => r :: cap_new k rs
    else r :: cap_new budget rs

/-- `DB.iter_new_or_incomplete` (`watcher.py` lines 268-291): the feed's rows
whose status is in `incomplete_statuses`, ordered by `first_seen_at`
ascending, then capped on how many start from `new`. -/
def iter_new_or_incomplete (db : List EpRow) (feedId : Nat) (maxNew : Option Nat) : List EpRow :=
  let rows := List.insertionSort by_first_seen
    (db.filter fun r => r.feedId == feedId && incomplete_statuses.contains r.status)
  match maxNew with
  | none => rows
  | some m => cap_new m rows

/-- An episode left in status `error` by a failed run (C5 counterexample). -/
def c5_err_row : EpRow :=
  { id := 1, feedId := 1, guid := some "g", audioUrl := some "u", title := "t",
    pubDate := some "2024-01-01", episodeDir := "d", audioPath := "a",
    transcriptPath := "t2", insightsPath := "i", status := "error",
    error := some "boom", firstSeenAt := 0 }

/-- A feed-1 row in status `new`, seen first. -/
def c5_new1 : EpRow :=
  { c5_err_row with
    id := 2, guid := some "g2", audioUrl := some "u2",
    status := "new", error := none, firstSeenAt := 1 }

/-- A second feed-1 row in status `new`. -/
def c5_new2 : EpRow :=
  { c5_err_row with
    id := 3, guid := some "g3", audioUrl := some "u3",
    status := "new", error := none, firstSeenAt := 2 }

/-- A feed-1 row mid-download. -/
def c5_dl : EpRow :=
  { c5_err_row with
    id := 4, guid := some "g4", audioUrl := some "u4",
    status := "downloading", error := none, firstSeenAt := 3 }

/-- A small feed-1 table for the C5 witness. -/
def c5_db : List EpRow := [c5_new1, c5_new2, c5_dl]

/-! ## Paginated per-feed listing (`database.py`, `ExtendedDB`) -/

/-- The sort key of `get_episodes_paginated` (`database.py` lines 184-200):
`CASE WHEN pub_date IS NOT NULL THEN pub_date ELSE '9999-99-99' END`,
compared as TEXT (lexicographic order on the characters). -/
def pag_key (r : EpRow) : List Char :=
  (match r.pubDate with
   | some d => d
   | none => "9999-99-99").data

/-- The `ORDER BY` of `get_episodes_paginated`: key descending, ties broken
by `first_seen_at` descending. -/
def pag_order (a b : EpRow) : Prop :=
  pag_key b < pag_key a ∨ (pag_key a = pag_key b ∧ b.firstSeenAt ≤ a.firstSeenAt)

instance : DecidableRel pag_order := fun a b => by
  unfold pag_order
  infer_instance

instance : IsTotal EpRow pag_order :=
  ⟨fun a b => by
    unfold pag_order
    rcases lt_trichotomy (pag_key a) (pag_key b) with h | h | h
    · exact Or.inr (Or.inl h)
    · rcases Nat.le_total b.firstSeenAt a.firstSeenAt with h2 | h2
      · exact Or.inl (Or.inr ⟨h, h2⟩)
      · exact Or.inr (Or.inr ⟨h.symm, h2⟩)
    · exact Or.inl (Or.inl h)⟩

instance : IsTrans EpRow pag_order :=
  ⟨fun a b c hab hbc => by
    unfold pag_order at hab hbc ⊢
    rcases hab with h1 | ⟨h1, h1f⟩
    · rcases hbc with h2 | ⟨h2, h2f⟩
      · exact Or.inl (lt_trans h2 h1)
      · exact Or.inl (by rw [← h2]; exact h1)
    · rcases hbc with h2 | ⟨h2, h2f⟩
      · exact Or.inl (by rw [h1]; exact h2)
      · exact Or.inr ⟨h1.trans h2, le_trans h2f h1f⟩⟩

/-- `ExtendedDB.get_episodes_paginated` (`database.py` lines 184-200): the
feed's episodes in the `ORDER BY` above; when a limit is given, the SQL
`LIMIT ? OFFSET ?` drops `offset` rows and takes `limit` (with no limit the
offset argument is ignored, as in the Python). -/
def get_episodes_paginated (db : List EpRow) (feedId : Nat) (offset : Nat)
    (limit : Option Nat) : List EpRow :=
  let rows := List.insertionSort pag_order (db.filter fun r => r.feedId == feedId)
  match limit with
  | none => rows
  | some l => (rows.drop offset).take l

/-- A feed-1 episode with a NULL publish date (C7). -/
def c7_null_row : EpRow :=
  { c5_err_row with
    id := 10, guid := some "gn", audioUrl := some "un", status := "done",
    error := none, pubDate := none, firstSeenAt := 1 }

/-- A feed-1 episode published 2024-01-01 and seen later (C7). -/
def c7_dated_row : EpRow :=
  { c5_err_row with
    id := 11, guid := some "gd", audioUrl := some "ud", status := "done",
    error := none, pubDate := some "2024-01-01", firstSeenAt := 2 }

/-! ## Run modes (`models.py`, `podcast_insights.py`) -/

/-- `ProcessingMode` (`models.py` lines 10-14). -/
inductive ProcessingMode where
  | full
  | transcribe
  | insights
deriving DecidableEq, Repr

/-- Modelled from the spec: `process_transcribe_only` is invoked by the mode
dispatch of `podcast_insights.py` (lines 253-266) but its definition is not
among the provided sources.  Per the spec's partial modes, transcribe-only
runs stages 1-2 of the unchanged per-stage contract and stops after writing
`transcribed`. -/
def run_transcribe_body (env : Env) (epId : Nat) (row : EpRow) (st : PState) :
    Except (String × PState) PState :=
  match stage_download env epId row (noteCallback st "downloading" row.title) with
  | .error e => .error e
  | .ok s1 =>
    match stage_transcribe env epId row
        (noteCallback (writeStatus s1 epId "downloaded") "transcribing" row.title) with
    | .error e => .error e
    | .ok s2 => .ok (writeStatus s2 epId "transcribed")

/-- Modelled from the spec: transcribe-only processing of one episode, with
the same episode-boundary error handling as `process_single_episode`. -/
def process_transcribe_only (env : Env) (st : PState) (epId : Nat) :
    (Bool × Option String) × PState :=
  match get_episode_by_id? st.db epId with
  | none =>
      let msg := key_error_msg epId
      ((false, some msg), writeStatus st epId "error" (some msg))
  | some row =>
      match run_transcribe_body env epId row st with
      | .ok stF => ((true, none), stF)
      | .error (msg, stE) => ((false, some msg), writeStatus stE epId "error" (some msg))

/-- Modelled from the spec: `process_insights_only` is invoked by the mode
dispatch of `podcast_insights.py` (lines 253-266) but its definition is not
among the provided sources.  Per the spec, insights-only runs stage 3 alone
and requires the episode to already be at or past `transcribed`: without a
transcript on disk it is a precondition failure reported synchronously to the
caller with no state mutation (spec sections 4.2 and 7). -/
def run_insights_body (env : Env) (epId : Nat) (row : EpRow) (st : PState) :
    Except (String × PState) PState :=
  match stage_insights env epId row (noteCallback st "analyzing" row.title) with
  | .error e => .error e
  | .ok s3 => .ok (noteCallback (writeStatus s3 epId "done") "done" row.title)

/-- Modelled from the spec: insights-only processing of one episode, gated on
the transcript artifact, with the usual boundary error handling otherwise. -/
def process_insights_only (env : Env) (st : PState) (epId : Nat) :
    (Bool × Option String) × PState :=
  match get_episode_by_id? st.db epId with
  | none => ((false, some (key_error_msg epId)), st)
  | some row =>
      if st.fs.contains row.transcriptPath then
        match run_insights_body env epId row st with
        | .ok stF => ((true, none), stF)
        | .error (msg, stE) => ((false, some msg), writeStatus stE epId "error" (some msg))
      else ((false, some ("No transcript available for episode: " ++ row.title)), st)

/-- The mode dispatch of `PodcastTUI.process_episode` (`podcast_insights.py`
lines 253-266). -/
def process_with_mode (mode : ProcessingMode) (env : Env) (st : PState) (epId : Nat) :
    (Bool × Option String) × PState :=
  match mode with
  | .full => process_single_episode env st epId
  | .transcribe => process_transcribe_only env st epId
  | .insights => process_insights_only env st epId

/-! ## String helpers and bulk selection parsing (`utils.py`) -/

/-- The whitespace characters of Python's `str.strip()` (ASCII range). -/
def py_whitespace : List Char := [' ', '\t', '\n', '\r', '\x0b', '\x0c']

/-- Whether a character is Python whitespace. -/
def is_py_space (c : Char) : Bool := py_whitespace.contains c

/-- `str.strip()`: drop whitespace from both ends. -/
def py_strip (l : List Char) : List Char :=
  ((l.dropWhile is_py_space).reverse.dropWhile is_py_space).reverse

/-- The value of a non-empty all-digit chunk, else `none`. -/
def digits_val? (l : List Char) : Option Nat :=
  if l.isEmpty then none
  else if l.all (fun c => c.isDigit) then
    some (l.foldl (fun acc c => acc * 10 + (c.toNat - 48)) 0)
  else none

/-- Python `int(...)` on an already-stripped chunk: optional sign, digits. -/
def py_int? : List Char → Option Int
  | [] => none
  | '-' :: rest => (digits_val? rest).map (fun n => -(n : Int))
  | '+' :: rest => (digits_val? rest).map (fun n => (n : Int))
  | l => (digits_val? l).map (fun n => (n : Int))

/-- One comma-separated part of a selection (stripped, non-empty): a range
`a-b` (exactly two dash-separated numbers, start not past end) or a single
number, yielding 0-based indices (`utils.py` lines 190-217). -/
def parse_part (part : List Char) : Except String (List Int) :=
  if part.contains '-' then
    match part.splitOn '-' with
    | [a, b2] =>
      match py_int? (py_strip a), py_int? (py_strip b2) with
      | some s, some e =>
          if s > e then .error ("Invalid range, start greater than end: " ++ String.mk part)
          else .ok ((List.range (e + 1 - s).toNat).map (fun k => s + (k : Int) - 1))
      | _, _ => .error ("Invalid range numbers: " ++ String.mk part)
    | _ => .error ("Invalid range format: " ++ String.mk part)
  else
    match py_int? part with
    | some n => .ok [n - 1]
    | none => .error ("Invalid number: " ++ String.mk part)

/-- The loop over comma-separated chunks; blank chunks are skipped and the
first invalid chunk aborts with its error (`utils.py` lines 186-217). -/
def collect_parts : List (List Char) → Except String (List Int)
  | [] => .ok []
  | p :: ps =>
    let part := py_strip p
    if part.isEmpty then collect_parts ps
    else
      match parse_part part with
      | .error e => .error e
      | .ok xs =>
        match collect_parts ps with
        | .error e => .error e
        | .ok ys => .ok (xs ++ ys)

/-- The tail of `parse_episode_selection` after normalisation: empty input
fails; `all` yields every 0-based index; otherwise the parts are collected,
deduplicated and sorted (`sorted(set(indices))`), and the first out-of-range
index aborts with a range error. -/
def parse_selection_of (inp : List Char) (maxIndex : Nat) : Except String (List Int) :=
  if inp.isEmpty then .error "Empty input"
  else if inp = "all".data then .ok (List.map Int.ofNat (List.range maxIndex))
  else
    match collect_parts (inp.splitOn ',') with
    | .error e => .error e
    | .ok indices =>
      match (List.insertionSort (fun a b => a ≤ b) indices.dedup).find?
          (fun i => decide (i < 0) || decide ((maxIndex : Int) ≤ i)) with
      | some i => .error ("Episode number out of range: " ++ toString (i + 1))
      | none => .ok (List.insertionSort (fun a b => a ≤ b) indices.dedup)

deriving instance DecidableEq for Except

/-- `parse_episode_selection` (`utils.py` lines 154-227): strip and lowercase
the input, then parse the selection against `maxIndex` available episodes. -/
def parse_episode_selection (input : String) (maxIndex : Nat) : Except String (List Int) :=
  parse_selection_of ((py_strip input.data).map Char.toLower) maxIndex

/-! ## Filename sanitisation (`utils.py`, `safe_name` and `short_hash`) -/

/-- The character class kept by `SAFE_CHARS_RE` (`[A-Za-z0-9 _-]`):
`SAFE_CHARS_RE.sub("", s)` deletes everything else. -/
def is_safe_char (c : Char) : Bool :=
  decide (65 ≤ c.toNat ∧ c.toNat ≤ 90) || decide (97 ≤ c.toNat ∧ c.toNat ≤ 122) ||
    decide (48 ≤ c.toNat ∧ c.toNat ≤ 57) || c == ' ' || c == '_' || c == '-'

/-- A separator character in the sense of `s.strip(" -_")`. -/
def is_sep (c : Char) : Bool := c == ' ' || c == '-' || c == '_'

/-- Lower-case hex digit. -/
def is_hex_char (c : Char) : Bool :=
  decide (48 ≤ c.toNat ∧ c.toNat ≤ 57) || decide (97 ≤ c.toNat ∧ c.toNat ≤ 102)

/-- `WS_RE.sub(" ", s)`: each maximal whitespace run becomes one space (the
flag records whether the previous character was part of a run). -/
def collapse_go : Bool → List Char → List Char
  | _, [] => []
  | prevWs, c :: cs =>
    if is_py_space c then
      if prevWs then collapse_go true cs
      else ' ' :: collapse_go true cs
    else c :: collapse_go false cs

/-- `s.strip(chars)`: drop characters of `sep` from both ends. -/
def strip_chars (sep : List Char) (l : List Char) : List Char :=
  ((l.dropWhile (fun c => sep.contains c)).reverse.dropWhile
    (fun c => sep.contains c)).reverse

/-- `s.rstrip()`: drop trailing whitespace. -/
def py_rstrip (l : List Char) : List Char :=
  (l.reverse.dropWhile is_py_space).reverse

/-- The sanitisation chain of `safe_name` before the length check
(`utils.py` lines 64-72): strip, slashes to dashes, delete unsafe characters,
collapse whitespace and strip, trim separator characters, fall back to
`"untitled"` when empty. -/
def sanitize_chars_list (s : String) : List Char :=
  strip_chars [' ', '-', '_']
    (py_strip (collapse_go false
      (((py_strip s.data).map (fun c => if c == '/' then '-' else c)).filter is_safe_char)))

/-- The final empty-name fallback of the sanitisation chain. -/
def sanitize (s : String) : String :=
  if (sanitize_chars_list s).isEmpty then "untitled" else String.mk (sanitize_chars_list s)

/-! SHA-1 (`hashlib.sha1`), on byte lists, all words mod `2 ^ 32`. -/

/-- Truncation to 32 bits. -/
def mask32 (n : Nat) : Nat := n % 4294967296

/-- 32-bit left rotation (argument below `2 ^ 32`). -/
def rotl32 (k w : Nat) : Nat := mask32 ((w <<< k) ||| (w >>> (32 - k)))

/-- The SHA-1 round function. -/
def sha1_f (t b c d : Nat) : Nat :=
  if t < 20 then (b &&& c) ||| ((b ^^^ 4294967295) &&& d)
  else if t < 40 then (b ^^^ c) ^^^ d
  else if t < 60 then ((b &&& c) ||| (b &&& d)) ||| (c &&& d)
  else (b ^^^ c) ^^^ d

/-- The SHA-1 round constants. -/
def sha1_k (t : Nat) : Nat :=
  if t < 20 then 0x5A827999
  else if t < 40 then 0x6ED9EBA1
  else if t < 60 then 0x8F1BBCDC
  else 0xCA62C1D6

/-- Big-endian bytes of `n`, `count` bytes long. -/
def be_bytes (count n : Nat) : List Nat :=
  (List.range count).map (fun i => (n >>> ((count - 1 - i) * 8)) % 256)

/-- SHA-1 padding: `0x80`, zeros to 56 mod 64, then the bit length. -/
def sha1_pad (msg : List Nat) : List Nat :=
  msg ++ 128 :: (List.replicate ((119 - msg.length % 64) % 64) 0 ++ be_bytes 8 (msg.length * 8))

/-- The padded message cut into 64-byte blocks. -/
def chunks64 (l : List Nat) : List (List Nat) :=
  (List.range ((l.length + 63) / 64)).map (fun i => (l.drop (64 * i)).take 64)

/-- Big-endian 32-bit word `i` of a block. -/
def word_at (block : List Nat) (i : Nat) : Nat :=
  ((block.getD (4 * i) 0 * 16777216 + block.getD (4 * i + 1) 0 * 65536) +
    block.getD (4 * i + 2) 0 * 256) + block.getD (4 * i + 3) 0

/-- One step of the message-schedule extension. -/
def extend_step (ws : List Nat) : List Nat :=
  ws ++ [rotl32 1 (((ws.getD (ws.length - 3) 0) ^^^ (ws.getD (ws.length - 8) 0)) ^^^
    ((ws.getD (ws.length - 14) 0) ^^^ (ws.getD (ws.length - 16) 0)))]

/-- The 80-word message schedule of a block. -/
def w80 (block : List Nat) : List Nat :=
  (List.range 64).foldl (fun ws _ => extend_step ws) ((List.range 16).map (word_at block))

/-- One SHA-1 round on the five-word state. -/
def sha1_round (ws : List Nat) (st : Nat × Nat × Nat × Nat × Nat) (t : Nat) :
    Nat × Nat × Nat × Nat × Nat :=
  match st with
  | (a, b, c, d, e) =>
    (mask32 ((((rotl32 5 a + sha1_f t b c d) + e) + sha1_k t) + ws.getD t 0),
     a, rotl32 30 b, c, d)

/-- One 64-byte block folded into the running state. -/
def sha1_chunk (h : Nat × Nat × Nat × Nat × Nat) (block : List Nat) :
    Nat × Nat × Nat × Nat × Nat :=
  match h, (List.range 80).foldl (sha1_round (w80 block)) h with
  | (h0, h1, h2, h3, h4), (a, b, c, d, e) =>
    (mask32 (h0 + a), mask32 (h1 + b), mask32 (h2 + c), mask32 (h3 + d), mask32 (h4 + e))

/-- The SHA-1 state of a whole byte message. -/
def sha1_state (msg : List Nat) : Nat × Nat × Nat × Nat × Nat :=
  (chunks64 (sha1_pad msg)).foldl sha1_chunk
    (0x67452301, 0xEFCDAB89, 0x98BADCFE, 0x10325476, 0xC3D2E1F0)

/-- Lower-case hex digit of a value below 16. -/
def hex_digit (n : Nat) : Char := if n < 10 then Char.ofNat (48 + n) else Char.ofNat (87 + n)

/-- The eight hex digits of a 32-bit word, most significant first. -/
def hex8 (w : Nat) : List Char :=
  (List.range 8).map (fun i => hex_digit ((w >>> ((7 - i) * 4)) % 16))

/-- UTF-8 encoding of one scalar value. -/
def utf8_encode_char (n : Nat) : List Nat :=
  if n < 128 then [n]
  else if n < 2048 then [192 + n / 64, 128 + n % 64]
  else if n < 65536 then [224 + n / 4096, 128 + (n / 64) % 64, 128 + n % 64]
  else [240 + n / 262144, 128 + (n / 4096) % 64, 128 + (n / 64) % 64, 128 + n % 64]

/-- `s.encode("utf-8")`. -/
def utf8_bytes (s : String) : List Nat :=
  (s.data.map (fun c => utf8_encode_char c.toNat)).flatten

/-- `hashlib.sha1(...).hexdigest()`: forty lower-case hex characters. -/
def hexdigest (msg : List Nat) : String :=
  match sha1_state msg with
  | (h0, h1, h2, h3, h4) =>
    String.mk ((((hex8 h0 ++ hex8 h1) ++ hex8 h2) ++ hex8 h3) ++ hex8 h4)

/-- `short_hash` (`utils.py` lines 78-80): the first six hex digits of the
SHA-1 of the UTF-8 encoding. -/
def short_hash (s : String) : String := String.mk ((hexdigest (utf8_bytes s)).data.take 6)

/-- The length check of `safe_name` (`utils.py` lines 73-74): names longer
than `maxLen` keep a right-stripped prefix of `maxLen - 8` characters plus a
dash and the 6-character fingerprint of the full (sanitised, untruncated)
name. -/
def truncate_name (t : String) (maxLen : Nat) : String :=
  if t.length > maxLen then
    String.mk (py_rstrip (t.data.take (maxLen - 8)) ++ ('-' :: (short_hash t).data))
  else t

/-- `safe_name` (`utils.py` lines 64-76). -/
def safe_name (s : String) (maxLen : Nat := 100) : String :=
  truncate_name (sanitize s) maxLen

/-- Counterexample input: 101 letters. -/
def c8_x : String := String.mk (List.replicate 101 'a')

/-- Counterexample input: the same 101 letters behind a character the
sanitiser deletes. -/
def c8_y : String := String.mk ('!' :: List.replicate 101 'a')

/-- A long clean input used to exercise the truncation branch. -/
def c8_w : String := String.mk (List.replicate 150 'b')

/-! ## Theorems -/

/-! ### Rows after an update -/

lemma update_row_fields {db : List EpRow} {epId : Nat} {status : String}
    {error : Option String} {r : EpRow} (hr : r ∈ update_episode_status db epId status error)
    (hid : r.id = epId) : r.status = status ∧ r.error = error := by
  unfold update_episode_status at hr
  obtain ⟨r0, _, heq⟩ := List.mem_map.1 hr
  by_cases h : (r0.id == epId) = true
  · rw [if_pos h] at heq
    subst heq
    exact ⟨rfl, rfl⟩
  · rw [if_neg h] at heq
    subst heq
    exact absurd (by simpa using hid) (by simpa using h)

/-! ### Event-trace extension lemmas -/

lemma EvDelta.rfl {P : Event → Prop} (st : PState) : EvDelta P st st :=
  ⟨[], by simp, by simp⟩

lemma EvDelta.trans {P : Event → Prop} {st1 st2 st3 : PState}
    (h12 : EvDelta P st1 st2) (h23 : EvDelta P st2 st3) : EvDelta P st1 st3 := by
  obtain ⟨d1, he1, hp1⟩ := h12
  obtain ⟨d2, he2, hp2⟩ := h23
  refine ⟨d1 ++ d2, by rw [he2, he1, List.append_assoc], ?_⟩
  intro ev hev
  rcases List.mem_append.1 hev with h | h
  · exact hp1 ev h
  · exact hp2 ev h

lemma EvDelta.mono {P Q : Event → Prop} {st1 st2 : PState}
    (hPQ : ∀ ev, P ev → Q ev) (h : EvDelta P st1 st2) : EvDelta Q st1 st2 := by
  obtain ⟨d, he, hp⟩ := h
  exact ⟨d, he, fun ev hev => hPQ ev (hp ev hev)⟩

lemma EvDelta.mem {P : Event → Prop} {st1 st2 : PState} {ev : Event}
    (h : EvDelta P st1 st2) (hev : ev ∈ st1.events) : ev ∈ st2.events := by
  obtain ⟨d, he, _⟩ := h
  rw [he]
  exact List.mem_append.2 (Or.inl hev)

lemma writeStatus_delta {P : Event → Prop} (st : PState) (epId : Nat) (status : String)
    (error : Option String) (hp : P (Event.statusWrite epId status error)) :
    EvDelta P st (writeStatus st epId status error) :=
  ⟨[Event.statusWrite epId status error], by simp [writeStatus], by simpa using hp⟩

lemma noteCallback_delta {P : Event → Prop} (st : PState) (stage title : String)
    (hp : P (Event.callbackNote stage title)) :
    EvDelta P st (noteCallback st stage title) :=
  ⟨[Event.callbackNote stage title], by simp [noteCallback], by simpa using hp⟩

lemma dlGo_delta (oc : Nat → Option String) (url : Option String) (dest : String)
    (b n : Nat) :
    ∀ (remaining attempt : Nat) (lastErr : Option String) (st : PState),
      EvDelta isNetOrSleep st (stOf (dlGo oc url dest b n attempt remaining lastErr st)) := by
  intro remaining
  induction remaining with
  | zero => intro attempt lastErr st; exact EvDelta.rfl st
  | succ k ih =>
      intro attempt lastErr st
      unfold dlGo
      cases hoc : oc attempt with
      | none =>
          exact ⟨[Event.netAttempt url], by simp [stOf], by simp [isNetOrSleep]⟩
      | some msg =>
          refine EvDelta.trans ?_ (ih (attempt + 1) (some msg) _)
          refine ⟨[Event.netAttempt url, Event.sleepFor (b * attempt)], by simp, ?_⟩
          intro ev hev
          simp only [List.mem_cons, List.not_mem_nil, or_false] at hev
          rcases hev with h | h <;> simp [h, isNetOrSleep]

/-! ### Dedup invariant lemmas -/

/-- Count of rows of feed `fid` carrying the (non-null) guid `g`. -/
def guidCount (db : List EpRow) (fid : Nat) (g : String) : Nat :=
  db.countP (fun r => r.feedId == fid && r.guid == some g)

lemma guidCount_update (db : List EpRow) (epId : Nat) (status : String)
    (error : Option String) (fid : Nat) (g : String) :
    guidCount (update_episode_status db epId status error) fid g = guidCount db fid g := by
  unfold guidCount update_episode_status
  rw [List.countP_map]
  apply List.countP_congr
  intro r _
  by_cases h : r.id == epId <;> simp [h, Function.comp]

lemma guidCount_insert_le (db : List EpRow) (epId now : Nat) (f : EpisodeFields)
    (fid : Nat) (g : String) (h : guidCount db fid g ≤ 1) :
    guidCount (insert_episode db epId now f) fid g ≤ 1 := by
  unfold insert_episode
  by_cases hc : db.any (fun r => insert_conflict r epId f)
  · simpa [hc] using h
  · rw [if_neg (by simpa using hc)]
    unfold guidCount at h ⊢
    rw [List.countP_append]
    by_cases hmatch : ((new_row epId now f).feedId == fid && (new_row epId now f).guid == some g) = true
    · have hf : f.feedId = fid ∧ f.guid = some g := by
        simpa [new_row, Bool.and_eq_true, beq_iff_eq] using hmatch
      have hzero : List.countP (fun r => r.feedId == fid && r.guid == some g) db = 0 := by
        rw [List.countP_eq_zero]
        intro r hr hrp
        apply hc
        rw [List.any_eq_true]
        refine ⟨r, hr, ?_⟩
        have hr2 : r.feedId = fid ∧ r.guid = some g := by
          simpa [Bool.and_eq_true, beq_iff_eq] using hrp
        simp [insert_conflict, hr2.1, hr2.2, hf.1, hf.2]
      rw [hzero]
      simp [List.countP_cons, hmatch]
    · have hone : List.countP (fun r => r.feedId == fid && r.guid == some g)
          [new_row epId now f] = 0 := by
        simp only [List.countP_cons, List.countP_nil]
        simp only [Bool.not_eq_true] at hmatch
        simp [hmatch]
      omega

/-- C2: ingesting the same entry (same GUID and same audio URL) any number of
times never creates a second episode row: `insert_episode` is a silent no-op
on a duplicate `(feed_id, guid)` or `(feed_id, audio_url)` key, and in every
reachable store state each feed holds at most one episode per (non-null)
guid. -/
theorem insert_episode_dedup :
    (∀ (db : List EpRow) (epId now : Nat) (f : EpisodeFields),
        (∃ r ∈ db, r.feedId = f.feedId ∧
          ((f.guid.isSome ∧ r.guid = f.guid) ∨ (f.audioUrl.isSome ∧ r.audioUrl = f.audioUrl))) →
        insert_episode db epId now f = db) ∧
    (∀ db : List EpRow, StoreReachable db → ∀ (fid : Nat) (g : String), guidCount db fid g ≤ 1) := by
  constructor
  · rintro db epId now f ⟨r, hr, hfeed, hkey⟩
    unfold insert_episode
    rw [if_pos]
    rw [List.any_eq_true]
    refine ⟨r, hr, ?_⟩
    rcases hkey with ⟨hs, he⟩ | ⟨hs, he⟩ <;>
      simp [insert_conflict, hfeed, he, hs]
  · intro db hreach fid g
    induction hreach with
    | init => simp [guidCount]
    | insert epId now f _ ih => exact guidCount_insert_le _ _ _ _ _ _ ih
    | update epId status error _ ih => rw [guidCount_update]; exact ih

/-- Concrete check of C2: a second ingestion of an already-known entry (same
guid, same audio url) leaves the single-row table unchanged, and that table
satisfies the per-feed guid-count bound. -/
theorem insert_episode_dedup_witness :
    insert_episode c2_db 2 5 c2_fields_again = c2_db ∧ guidCount c2_db 7 "g1" ≤ 1 := by
  constructor
  · exact insert_episode_dedup.1 _ _ _ _
      ⟨new_row 1 0 c2_fields, by simp [c2_db], by simp [new_row, c2_fields, c2_fields_again],
        Or.inl ⟨by simp [c2_fields_again], by simp [new_row, c2_fields, c2_fields_again]⟩⟩
  · have h := insert_episode_dedup.2 (insert_episode [] 1 0 c2_fields)
      (StoreReachable.insert 1 0 c2_fields StoreReachable.init) 7 "g1"
    simpa [insert_episode, insert_conflict, c2_db] using h

lemma stage_download_delta (env : Env) (epId : Nat) (row : EpRow) (st : PState) :
    EvDelta (fun ev => ev = Event.statusWrite epId "downloading" none ∨ isNetOrSleep ev)
      st (stOf (stage_download env epId row st)) := by
  unfold stage_download
  by_cases h : st.fs.contains row.audioPath
  · rw [if_pos h]
    exact EvDelta.rfl st
  · rw [if_neg h]
    unfold download_audio
    exact EvDelta.trans
      (writeStatus_delta st epId "downloading" none (Or.inl rfl))
      ((dlGo_delta env.dlOutcomes row.audioUrl row.audioPath env.retryBackoffSeconds
          env.maxRetries env.maxRetries 1 none _).mono (fun _ hev => Or.inr hev))

lemma stage_transcribe_delta (env : Env) (epId : Nat) (row : EpRow) (st : PState) :
    EvDelta (fun ev => ev = Event.statusWrite epId "transcribing" none ∨ ev = Event.transcribeTool)
      st (stOf (stage_transcribe env epId row st)) := by
  unfold stage_transcribe
  by_cases h : st.fs.contains row.transcriptPath
  · rw [if_pos h]
    exact EvDelta.rfl st
  · rw [if_neg h]
    refine EvDelta.trans (writeStatus_delta st epId "transcribing" none (Or.inl rfl)) ?_
    cases henv : env.transcribeOut with
    | error s =>
        exact ⟨[Event.transcribeTool], by simp [stOf], by simp⟩
    | ok created =>
        refine ⟨[Event.transcribeTool], ?_, by simp⟩
        by_cases h2 : (row.transcriptPath ∈ created ∨
            row.transcriptPath ∈ (writeStatus st epId "transcribing" none).fs) <;>
          simp [stOf, h2]

lemma stage_insights_delta (env : Env) (epId : Nat) (row : EpRow) (st : PState) :
    EvDelta (fun ev => ev = Event.statusWrite epId "analyzing" none ∨ ev = Event.insightsTool)
      st (stOf (stage_insights env epId row st)) := by
  unfold stage_insights
  by_cases h : st.fs.contains row.insightsPath
  · rw [if_pos h]
    exact EvDelta.rfl st
  · rw [if_neg h]
    refine EvDelta.trans (writeStatus_delta st epId "analyzing" none (Or.inl rfl)) ?_
    cases henv : env.insightsOut with
    | error s =>
        exact ⟨[Event.insightsTool], by simp [stOf], by simp⟩
    | ok created =>
        refine ⟨[Event.insightsTool], ?_, by simp⟩
        by_cases h2 : (row.insightsPath ∈ created ∨
            row.insightsPath ∈ (writeStatus st epId "analyzing" none).fs) <;>
          simp [stOf, h2]

/-- Every status write performed inside the protected pipeline body carries a
NULL error column (the Python calls never pass `error=` there). -/
lemma run_full_body_writes_none (env : Env) (epId : Nat) (row : EpRow) (st : PState) :
    EvDelta (fun ev => ∀ i s e, ev = Event.statusWrite i s e → e = none)
      st (stOf (run_full_body env epId row st)) := by
  have hmono1 : ∀ ev, (ev = Event.statusWrite epId "downloading" none ∨ isNetOrSleep ev) →
      ∀ i s e, ev = Event.statusWrite i s e → e = none := by
    rintro ev (rfl | hev) i s e hev2
    · cases hev2; rfl
    · subst hev2; cases hev
  have hmono2 : ∀ ev, (ev = Event.statusWrite epId "transcribing" none ∨ ev = Event.transcribeTool) →
      ∀ i s e, ev = Event.statusWrite i s e → e = none := by
    rintro ev (rfl | rfl) i s e hev2
    · cases hev2; rfl
    · cases hev2
  have hmono3 : ∀ ev, (ev = Event.statusWrite epId "analyzing" none ∨ ev = Event.insightsTool) →
      ∀ i s e, ev = Event.statusWrite i s e → e = none := by
    rintro ev (rfl | rfl) i s e hev2
    · cases hev2; rfl
    · cases hev2
  have hcb : ∀ stage title, ∀ i s e,
      Event.callbackNote stage title = Event.statusWrite i s e → e = none := by
    intro stage title i s e hev
    cases hev
  have hws : ∀ stat, ∀ i s e,
      (Event.statusWrite epId stat none : Event) = Event.statusWrite i s e → e = none := by
    intro stat i s e hev
    cases hev; rfl
  unfold run_full_body
  have h1 := (stage_download_delta env epId row (noteCallback st "downloading" row.title)).mono hmono1
  have hpre0 : EvDelta (fun ev => ∀ i s e, ev = Event.statusWrite i s e → e = none)
      st (stOf (stage_download env epId row (noteCallback st "downloading" row.title))) :=
    EvDelta.trans (noteCallback_delta st "downloading" row.title (hcb _ _)) h1
  cases hd : stage_download env epId row (noteCallback st "downloading" row.title) with
  | error e =>
      rw [hd] at hpre0
      exact hpre0
  | ok s1 =>
      rw [hd] at hpre0
      dsimp only
      have h2 := (stage_transcribe_delta env epId row
        (noteCallback (writeStatus s1 epId "downloaded") "transcribing" row.title)).mono hmono2
      have hpre1 : EvDelta (fun ev => ∀ i s e, ev = Event.statusWrite i s e → e = none)
          st (stOf (stage_transcribe env epId row
            (noteCallback (writeStatus s1 epId "downloaded") "transcribing" row.title))) :=
        EvDelta.trans hpre0 (EvDelta.trans (writeStatus_delta s1 epId "downloaded" none (hws _))
          (EvDelta.trans (noteCallback_delta _ "transcribing" row.title (hcb _ _)) h2))
      cases ht : stage_transcribe env epId row
          (noteCallback (writeStatus s1 epId "downloaded") "transcribing" row.title) with
      | error e =>
          rw [ht] at hpre1
          exact hpre1
      | ok s2 =>
          rw [ht] at hpre1
          dsimp only
          have h3 := (stage_insights_delta env epId row
            (noteCallback (writeStatus s2 epId "transcribed") "analyzing" row.title)).mono hmono3
          have hpre2 : EvDelta (fun ev => ∀ i s e, ev = Event.statusWrite i s e → e = none)
              st (stOf (stage_insights env epId row
                (noteCallback (writeStatus s2 epId "transcribed") "analyzing" row.title))) :=
            EvDelta.trans hpre1 (EvDelta.trans (writeStatus_delta s2 epId "transcribed" none (hws _))
              (EvDelta.trans (noteCallback_delta _ "analyzing" row.title (hcb _ _)) h3))
          cases hi : stage_insights env epId row
              (noteCallback (writeStatus s2 epId "transcribed") "analyzing" row.title) with
          | error e =>
              rw [hi] at hpre2
              exact hpre2
          | ok s3 =>
              rw [hi] at hpre2
              dsimp only
              exact EvDelta.trans hpre2 (EvDelta.trans (writeStatus_delta s3 epId "done" none (hws _))
                (noteCallback_delta _ "done" row.title (hcb _ _)))

/-! ### C1: idempotent re-entry when artifacts exist -/

/-- C1: for an episode whose audio, transcript and insights files all already
exist, the full pipeline performs no network fetch and no external tool
invocation (the trace gains exactly three status writes and four callbacks),
advances the stored status straight through the `downloaded`, `transcribed`,
`done` sub-states, and returns success with no message — regardless of the
status stored beforehand. -/
theorem process_complete_artifacts (env : Env) (st : PState) (epId : Nat) (row : EpRow)
    (hfind : get_episode_by_id? st.db epId = some row)
    (ha : row.audioPath ∈ st.fs)
    (ht : row.transcriptPath ∈ st.fs)
    (hi : row.insightsPath ∈ st.fs) :
    process_single_episode env st epId = ((true, none), expected_done_state st epId row) ∧
    ∀ r ∈ (process_single_episode env st epId).2.db, r.id = epId →
      r.status = "done" ∧ r.error = none := by
  have hmain : process_single_episode env st epId =
      ((true, none), expected_done_state st epId row) := by
    unfold process_single_episode run_full_body stage_download stage_transcribe stage_insights
    rw [hfind]
    simp [noteCallback, writeStatus, ha, ht, hi, expected_done_state]
  refine ⟨hmain, ?_⟩
  intro r hr hid
  rw [hmain] at hr
  simp only [expected_done_state] at hr
  exact update_row_fields hr hid

/-- Closed instance of C1: the fully-materialised episode `w_row` (stored
status `error`) reprocesses to `done` with success and no message. -/
theorem process_complete_artifacts_witness :
    (process_single_episode w_env w_st 4).1 = (true, none) ∧
    w_row.status = "error" ∧
    ({ w_row with status := "done", error := none } : EpRow).status = "done" := by
  have h := process_complete_artifacts w_env w_st 4 w_row (by decide) (by decide)
    (by decide) (by decide)
  refine ⟨by rw [h.1], rfl, ?_⟩
  have hm : ({ w_row with status := "done", error := none } : EpRow) ∈
      (process_single_episode w_env w_st 4).2.db := by
    rw [h.1]
    decide
  exact (h.2 _ hm (by decide)).1 ▸ rfl

/-! ### C3: the episode boundary catches every failure -/

lemma process_sequential_length (env : Env) :
    ∀ (ids : List Nat) (st : PState),
      (process_sequential env st ids).1.length = ids.length := by
  intro ids
  induction ids with
  | nil => intro st; rfl
  | cons i rest ih =>
      intro st
      simp only [process_sequential]
      simp [ih]


/-- C3: `process_single_episode` always returns a `(success, message)` pair
to its caller: a success carries no message; a failure carries some message,
and whenever the failure message is `m` the episode's rows are stored as
status `error` with error message `m`.  A sequential driver consequently
attempts every episode of its list, whatever the individual outcomes. -/
theorem process_error_boundary (env : Env) (st : PState) (epId : Nat) :
    ((process_single_episode env st epId).1.1 = true →
        (process_single_episode env st epId).1.2 = none) ∧
    ((process_single_episode env st epId).1.1 = false →
        (process_single_episode env st epId).1.2 ≠ none) ∧
    (∀ m, (process_single_episode env st epId).1.2 = some m →
        ∀ r ∈ (process_single_episode env st epId).2.db, r.id = epId →
          r.status = "error" ∧ r.error = some m) ∧
    (∀ ids : List Nat, (process_sequential env st ids).1.length = ids.length) := by
  have hcases : (∃ stF, process_single_episode env st epId = ((true, none), stF)) ∨
      (∃ m stE, process_single_episode env st epId =
        ((false, some m), writeStatus stE epId "error" (some m))) := by
    unfold process_single_episode
    cases hg : get_episode_by_id? st.db epId with
    | none =>
        dsimp only
        exact Or.inr ⟨key_error_msg epId, st, rfl⟩
    | some row =>
        dsimp only
        cases hb : run_full_body env epId row st with
        | ok stF => exact Or.inl ⟨stF, rfl⟩
        | error e =>
            obtain ⟨m, stE⟩ := e
            exact Or.inr ⟨m, stE, rfl⟩
  refine ⟨?_, ?_, ?_, ?_⟩
  · intro h
    rcases hcases with ⟨stF, heq⟩ | ⟨m, stE, heq⟩
    · rw [heq]
    · rw [heq] at h
      cases h
  · intro h
    rcases hcases with ⟨stF, heq⟩ | ⟨m, stE, heq⟩
    · rw [heq] at h
      cases h
    · rw [heq]
      simp
  · intro m hm r hr hid
    rcases hcases with ⟨stF, heq⟩ | ⟨m2, stE, heq⟩
    · rw [heq] at hm
      cases hm
    · rw [heq] at hm hr
      simp only [Option.some.injEq] at hm
      subst hm
      simp only [writeStatus] at hr
      exact update_row_fields hr hid
  · intro ids
    exact process_sequential_length env ids st

/-- Closed instance of C3: on an empty filesystem with a tool that creates no
file, processing fails, carries the transcription message, marks the row
`error` with that message, and a two-episode driver still attempts both. -/
theorem process_error_boundary_witness :
    (process_single_episode w_env w_st_empty 4).1.1 = false ∧
    (process_single_episode w_env w_st_empty 4).1.2 ≠ none ∧
    (process_sequential w_env w_st_empty [4, 4]).1.length = 2 := by
  refine ⟨by decide, ?_, ?_⟩
  · exact (process_error_boundary w_env w_st_empty 4).2.1 (by decide)
  · exact (process_error_boundary w_env w_st_empty 4).2.2.2 [4, 4]

/-! ### C10: status writes without explicit error clear the error column -/

/-- C10: a status write that passes no explicit error overwrites the stored
error with NULL in the same atomic write as the status, and every status the
pipeline writes other than `error` is written with a NULL error — so a
successful stage transition clears any stale message, and a row whose status
was last written as a non-`error` status carries no error message. -/
theorem update_status_clears_error :
    (∀ (db : List EpRow) (epId : Nat) (stat : String),
        ∀ r ∈ update_episode_status db epId stat, r.id = epId →
          r.status = stat ∧ r.error = none) ∧
    (∀ (env : Env) (st : PState) (epId : Nat) (d : List Event),
        (process_single_episode env st epId).2.events = st.events ++ d →
        ∀ s e, Event.statusWrite epId s e ∈ d → s ≠ "error" → e = none) := by
  constructor
  · intro db epId stat r hr hid
    exact update_row_fields hr hid
  · intro env st epId d hd s e hmem hne
    have hdelta : EvDelta (fun ev => ∀ i s2 e2, ev = Event.statusWrite i s2 e2 →
        s2 ≠ "error" → e2 = none) st (process_single_episode env st epId).2 := by
      unfold process_single_episode
      cases hg : get_episode_by_id? st.db epId with
      | none =>
          dsimp only
          refine ⟨[Event.statusWrite epId "error" (some (key_error_msg epId))],
            by simp [writeStatus], ?_⟩
          intro ev hev i s2 e2 hev2 hs2
          simp only [List.mem_cons, List.not_mem_nil, or_false] at hev
          subst hev
          cases hev2
          exact absurd rfl hs2
      | some row =>
          dsimp only
          have hbody := run_full_body_writes_none env epId row st
          cases hb : run_full_body env epId row st with
          | ok stF =>
              rw [hb] at hbody
              dsimp only
              exact hbody.mono (fun ev hp i s2 e2 hev2 _ => hp i s2 e2 hev2)
          | error e2 =>
              obtain ⟨m, stE⟩ := e2
              rw [hb] at hbody
              dsimp only
              refine EvDelta.trans (hbody.mono (fun ev hp i s2 e2 hev2 _ => hp i s2 e2 hev2)) ?_
              refine ⟨[Event.statusWrite epId "error" (some m)], by simp [writeStatus, stOf], ?_⟩
              intro ev hev i s2 e2 hev2 hs2
              simp only [List.mem_cons, List.not_mem_nil, or_false] at hev
              subst hev
              cases hev2
              exact absurd rfl hs2
    obtain ⟨d2, hd2, hp2⟩ := hdelta
    have hdd : d = d2 := by
      have := hd.symm.trans hd2
      exact List.append_cancel_left this
    subst hdd
    exact hp2 _ hmem epId s e rfl hne

/-- Closed instance of C10: updating `w_row` (which carries a stale error)
to `downloaded` without an explicit error yields a row with a NULL error. -/
theorem update_status_clears_error_witness :
    ({ w_row with status := "downloaded", error := none } : EpRow).status = "downloaded" ∧
    ({ w_row with status := "downloaded", error := none } : EpRow).error = none := by
  exact update_status_clears_error.1 [w_row] 4 "downloaded"
    { w_row with status := "downloaded", error := none } (by decide) (by decide)

/-! ### C4: download retry and backoff -/

lemma netCount_append (a b : List Event) : netCount (a ++ b) = netCount a + netCount b := by
  unfold netCount
  exact List.countP_append _ _ _

lemma dlGo_netCount_le (oc : Nat → Option String) (url : Option String) (dest : String)
    (b n : Nat) :
    ∀ (remaining attempt : Nat) (lastErr : Option String) (st : PState),
      netCount (stOf (dlGo oc url dest b n attempt remaining lastErr st)).events ≤
        netCount st.events + remaining := by
  intro remaining
  induction remaining with
  | zero =>
      intro attempt lastErr st
      simp [dlGo, stOf]
  | succ k ih =>
      intro attempt lastErr st
      unfold dlGo
      cases hoc : oc attempt with
      | none =>
          simp only [stOf, netCount_append]
          have : netCount [Event.netAttempt url] = 1 := by simp [netCount]
          omega
      | some msg =>
          dsimp only
          refine le_trans (ih (attempt + 1) (some msg)
            { st with events := st.events ++
                [Event.netAttempt url, Event.sleepFor (b * attempt)] }) ?_
          have hproj : netCount ({ st with events := st.events ++
              [Event.netAttempt url, Event.sleepFor (b * attempt)] } : PState).events =
              netCount st.events + 1 := by
            simp only [netCount_append]
            have : netCount [Event.netAttempt url, Event.sleepFor (b * attempt)] = 1 := by
              simp [netCount]
            omega
          omega

lemma lastAfter_eq (oc : Nat → Option String) :
    ∀ (k a : Nat) (e : Option String), 1 ≤ k → lastAfter oc a k e = oc (a + k - 1) := by
  intro k
  induction k with
  | zero => intro a e h; omega
  | succ t ih =>
      intro a e _
      unfold lastAfter
      by_cases ht : 1 ≤ t
      · rw [ih (a + 1) (oc a) ht, show a + 1 + t - 1 = a + (t + 1) - 1 from by omega]
      · have ht0 : t = 0 := by omega
        subst ht0
        unfold lastAfter
        rw [show a + (0 + 1) - 1 = a from by omega]

lemma lastAfter_succ (oc : Nat → Option String) (a k : Nat) (e : Option String) :
    lastAfter oc a (k + 1) e = lastAfter oc (a + 1) k (oc a) := rfl

lemma dlGo_all_fail (oc : Nat → Option String) (url : Option String) (dest : String)
    (b n : Nat) :
    ∀ (remaining attempt : Nat) (lastErr : Option String) (st : PState),
      (∀ i, attempt ≤ i → i < attempt + remaining → oc i ≠ none) →
      dlGo oc url dest b n attempt remaining lastErr st =
        .error (dlFailMsg n (lastAfter oc attempt remaining lastErr),
                { st with events := st.events ++ failEvts url b attempt remaining }) := by
  intro remaining
  induction remaining with
  | zero =>
      intro attempt lastErr st _
      simp [dlGo, lastAfter, failEvts]
  | succ k ih =>
      intro attempt lastErr st h
      have hA : oc attempt ≠ none := h attempt (le_refl _) (by omega)
      obtain ⟨m, hm⟩ := Option.ne_none_iff_exists'.1 hA
      unfold dlGo
      rw [hm]
      dsimp only
      rw [ih (attempt + 1) (some m)
          { st with events := st.events ++
              [Event.netAttempt url, Event.sleepFor (b * attempt)] }
          (fun i h1 h2 => h i (by omega) (by omega))]
      rw [lastAfter_succ, hm]
      simp [failEvts, List.append_assoc]

lemma dlGo_success (oc : Nat → Option String) (url : Option String) (dest : String)
    (b n : Nat) :
    ∀ (j remaining attempt : Nat) (lastErr : Option String) (st : PState),
      j < remaining →
      (∀ i, attempt ≤ i → i < attempt + j → oc i ≠ none) →
      oc (attempt + j) = none →
      dlGo oc url dest b n attempt remaining lastErr st =
        .ok { st with fs := dest :: st.fs,
                      events := st.events ++ failEvts url b attempt j ++ [Event.netAttempt url] } := by
  intro j
  induction j with
  | zero =>
      intro remaining attempt lastErr st hj hfail hsucc
      obtain ⟨r, rfl⟩ : ∃ r, remaining = r + 1 := ⟨remaining - 1, by omega⟩
      unfold dlGo
      rw [show oc attempt = none from by simpa using hsucc]
      dsimp only
      simp [failEvts]
  | succ k ih =>
      intro remaining attempt lastErr st hj hfail hsucc
      obtain ⟨r, rfl⟩ : ∃ r, remaining = r + 1 := ⟨remaining - 1, by omega⟩
      have hA : oc attempt ≠ none := hfail attempt (le_refl _) (by omega)
      obtain ⟨m, hm⟩ := Option.ne_none_iff_exists'.1 hA
      unfold dlGo
      rw [hm]
      dsimp only
      rw [ih r (attempt + 1) (some m)
          { st with events := st.events ++
              [Event.netAttempt url, Event.sleepFor (b * attempt)] }
          (by omega) (fun i h1 h2 => hfail i (by omega) (by omega))
          (by rw [show attempt + 1 + k = attempt + (k + 1) from by omega]; exact hsucc)]
      simp [failEvts, List.append_assoc]

lemma sleepsOf_failEvts (url : Option String) (b : Nat) :
    ∀ (k a : Nat), sleepsOf (failEvts url b a k) = (List.range k).map (fun i => b * (a + i)) := by
  intro k
  induction k with
  | zero => intro a; simp [failEvts, sleepsOf]
  | succ t ih =>
      intro a
      have hstep : sleepsOf (failEvts url b a (t + 1)) =
          b * a :: sleepsOf (failEvts url b (a + 1) t) := by
        simp [failEvts, sleepsOf]
      rw [hstep, ih (a + 1), List.range_succ_eq_map]
      simp only [List.map_cons, List.map_map, Nat.add_zero]
      congr 1
      apply List.map_congr_left
      intro i _
      simp only [Function.comp_apply]
      congr 1
      omega

lemma netCount_failEvts (url : Option String) (b : Nat) :
    ∀ (k a : Nat), netCount (failEvts url b a k) = k := by
  intro k
  induction k with
  | zero => intro a; simp [failEvts, netCount]
  | succ t ih =>
      intro a
      have hstep : netCount (failEvts url b a (t + 1)) =
          netCount (failEvts url b (a + 1) t) + 1 := by
        simp [failEvts, netCount, List.countP_cons]
      rw [hstep, ih (a + 1)]

lemma run_full_body_ok_downloaded (env : Env) (epId : Nat) (row : EpRow) (st stF : PState)
    (hb : run_full_body env epId row st = .ok stF) :
    Event.statusWrite epId "downloaded" none ∈ stF.events := by
  unfold run_full_body at hb
  cases hd : stage_download env epId row (noteCallback st "downloading" row.title) with
  | error e => rw [hd] at hb; simp at hb
  | ok s1 =>
      rw [hd] at hb
      dsimp only at hb
      have hmem1 : Event.statusWrite epId "downloaded" none ∈
          (noteCallback (writeStatus s1 epId "downloaded") "transcribing" row.title).events := by
        simp [noteCallback, writeStatus]
      cases ht : stage_transcribe env epId row
          (noteCallback (writeStatus s1 epId "downloaded") "transcribing" row.title) with
      | error e => rw [ht] at hb; simp at hb
      | ok s2 =>
          rw [ht] at hb
          dsimp only at hb
          have hdel2 := stage_transcribe_delta env epId row
            (noteCallback (writeStatus s1 epId "downloaded") "transcribing" row.title)
          rw [ht] at hdel2
          have hmem2 : Event.statusWrite epId "downloaded" none ∈ s2.events :=
            hdel2.mem hmem1
          have hmem3 : Event.statusWrite epId "downloaded" none ∈
              (noteCallback (writeStatus s2 epId "transcribed") "analyzing" row.title).events := by
            simp only [noteCallback, writeStatus, List.mem_append]
            exact Or.inl (Or.inl hmem2)
          cases hi : stage_insights env epId row
              (noteCallback (writeStatus s2 epId "transcribed") "analyzing" row.title) with
          | error e => rw [hi] at hb; simp at hb
          | ok s3 =>
              rw [hi] at hb
              dsimp only at hb
              have hdel3 := stage_insights_delta env epId row
                (noteCallback (writeStatus s2 epId "transcribed") "analyzing" row.title)
              rw [hi] at hdel3
              have hmem4 : Event.statusWrite epId "downloaded" none ∈ s3.events :=
                hdel3.mem hmem3
              have hstF : stF = noteCallback (writeStatus s3 epId "done") "done" row.title := by
                cases hb
                rfl
              rw [hstF]
              simp only [noteCallback, writeStatus, List.mem_append]
              exact Or.inl (Or.inl hmem4)

/-- C4: with `max_retries = n ≥ 1` and backoff `b`, `_download_audio` makes
at most `n` network fetch attempts; the `k` failed attempts numbered
`a, a+1, ...` sleep exactly `b * a, b * (a+1), ...` seconds in order; if the
first `j < n` attempts fail and attempt `j+1` succeeds, the file lands at
`dest` and the call returns normally (and a successful pipeline run indeed
records the subsequent `downloaded` status write); if all `n` attempts fail,
the call raises the terminal message retaining the last underlying error. -/
theorem download_retry_backoff (env : Env) (url : Option String) (dest : String)
    (st : PState) (hn : 1 ≤ env.maxRetries) :
    (netCount (stOf (download_audio env url dest st)).events ≤
        netCount st.events + env.maxRetries) ∧
    (∀ k a, sleepsOf (failEvts url env.retryBackoffSeconds a k) =
        (List.range k).map (fun i => env.retryBackoffSeconds * (a + i))) ∧
    (∀ k a, netCount (failEvts url env.retryBackoffSeconds a k) = k) ∧
    (∀ m, (∀ i, 1 ≤ i → i ≤ env.maxRetries → env.dlOutcomes i ≠ none) →
        env.dlOutcomes env.maxRetries = some m →
        download_audio env url dest st =
          .error (dlFailMsg env.maxRetries (some m),
                  { st with events := st.events ++
                      failEvts url env.retryBackoffSeconds 1 env.maxRetries })) ∧
    (∀ j, j < env.maxRetries → (∀ i, 1 ≤ i → i ≤ j → env.dlOutcomes i ≠ none) →
        env.dlOutcomes (j + 1) = none →
        download_audio env url dest st =
          .ok { st with fs := dest :: st.fs,
                        events := st.events ++ failEvts url env.retryBackoffSeconds 1 j ++
                          [Event.netAttempt url] }) ∧
    (∀ (env2 : Env) (st2 : PState) (id2 : Nat),
        (process_single_episode env2 st2 id2).1.1 = true →
        Event.statusWrite id2 "downloaded" none ∈ (process_single_episode env2 st2 id2).2.events) := by
  refine ⟨?_, ?_, ?_, ?_, ?_, ?_⟩
  · exact dlGo_netCount_le env.dlOutcomes url dest env.retryBackoffSeconds env.maxRetries
      env.maxRetries 1 none st
  · exact fun k a => sleepsOf_failEvts url env.retryBackoffSeconds k a
  · exact fun k a => netCount_failEvts url env.retryBackoffSeconds k a
  · intro m hfail hlast
    unfold download_audio
    rw [dlGo_all_fail env.dlOutcomes url dest env.retryBackoffSeconds env.maxRetries
      env.maxRetries 1 none st (fun i h1 h2 => hfail i h1 (by omega))]
    rw [lastAfter_eq env.dlOutcomes env.maxRetries 1 none hn]
    rw [show 1 + env.maxRetries - 1 = env.maxRetries from by omega, hlast]
  · intro j hj hfail hsucc
    unfold download_audio
    exact dlGo_success env.dlOutcomes url dest env.retryBackoffSeconds env.maxRetries
      j env.maxRetries 1 none st hj (fun i h1 h2 => hfail i h1 (by omega))
      (by rw [show 1 + j = j + 1 from by omega]; exact hsucc)
  · intro env2 st2 id2 hsuccess
    unfold process_single_episode at hsuccess ⊢
    cases hg : get_episode_by_id? st2.db id2 with
    | none =>
        rw [hg] at hsuccess
        dsimp only at hsuccess
        exact absurd hsuccess (by decide)
    | some row =>
        rw [hg] at hsuccess
        dsimp only at hsuccess ⊢
        cases hb : run_full_body env2 id2 row st2 with
        | error e =>
            obtain ⟨m, stE⟩ := e
            rw [hb] at hsuccess
            dsimp only at hsuccess
            exact absurd hsuccess (by decide)
        | ok stF =>
            dsimp only
            exact run_full_body_ok_downloaded env2 id2 row st2 stF hb


/-- Closed instance of C4: with backoff 5, two failed attempts then a success
return normally with the file in place after sleeping 5 then 10 seconds and
exactly two failed fetches, and a successful full pipeline run records the
subsequent `downloaded` status write. -/
theorem download_retry_backoff_witness :
    download_audio c4_env (some "u") "dest" c4_st =
      .ok { c4_st with fs := "dest" :: c4_st.fs,
                       events := c4_st.events ++ failEvts (some "u") 5 1 2 ++
                         [Event.netAttempt (some "u")] } ∧
    sleepsOf (failEvts (some "u") 5 1 2) = [5, 10] ∧
    netCount (failEvts (some "u") 5 1 2) = 2 ∧
    Event.statusWrite 4 "downloaded" none ∈
      (process_single_episode w_env_ok w_st_empty 4).2.events := by
  have h := download_retry_backoff c4_env (some "u") "dest" c4_st (by decide)
  refine ⟨?_, ?_, ?_, ?_⟩
  · exact h.2.2.2.2.1 2 (by decide)
      (fun i h1 h2 => by interval_cases i <;> decide) (by decide)
  · exact (h.2.1 2 1).trans (by decide)
  · exact h.2.2.1 2 1
  · exact h.2.2.2.2.2 w_env_ok w_st_empty 4 (by decide)

/-! ### C5: one-shot poll selection -/

lemma cap_new_sublist : ∀ (budget : Nat) (l : List EpRow), List.Sublist (cap_new budget l) l := by
  intro budget l
  induction l generalizing budget with
  | nil => simp [cap_new]
  | cons r rs ih =>
      unfold cap_new
      by_cases h : r.status = "new"
      · rw [if_pos h]
        cases budget with
        | zero => exact List.Sublist.cons r (ih 0)
        | succ k => exact List.Sublist.cons₂ r (ih k)
      · rw [if_neg h]
        exact List.Sublist.cons₂ r (ih budget)

lemma cap_new_count_new : ∀ (l : List EpRow) (budget : Nat),
    ((cap_new budget l).filter (fun r => r.status == "new")).length =
      min budget ((l.filter (fun r => r.status == "new")).length) := by
  intro l
  induction l with
  | nil => intro budget; simp [cap_new]
  | cons r rs ih =>
      intro budget
      unfold cap_new
      by_cases h : r.status = "new"
      · rw [if_pos h]
        cases budget with
        | zero =>
            simp only [List.filter_cons]
            rw [show (r.status == "new") = true from by simp [h]]
            simp [ih 0]
        | succ k =>
            simp only [List.filter_cons]
            rw [show (r.status == "new") = true from by simp [h]]
            simp only [if_pos, List.length_cons, ih k, Nat.succ_min_succ]
      · rw [if_neg h]
        simp only [List.filter_cons]
        rw [show (r.status == "new") = false from by simp [h]]
        simp [ih budget]

lemma cap_new_filter_stable : ∀ (l : List EpRow) (budget : Nat),
    (cap_new budget l).filter (fun r => !(r.status == "new")) =
      l.filter (fun r => !(r.status == "new")) := by
  intro l
  induction l with
  | nil => intro budget; simp [cap_new]
  | cons r rs ih =>
      intro budget
      unfold cap_new
      by_cases h : r.status = "new"
      · rw [if_pos h]
        cases budget with
        | zero =>
            simp only [List.filter_cons]
            rw [show (!(r.status == "new")) = false from by simp [h]]
            simp [ih 0]
        | succ k =>
            simp only [List.filter_cons]
            rw [show (!(r.status == "new")) = false from by simp [h]]
            simp [ih k]
      · rw [if_neg h]
        simp only [List.filter_cons]
        rw [show (!(r.status == "new")) = true from by simp [h]]
        simp [ih budget]

/-- C5 counterexample: an episode stored in status `error` — which is not
terminal (`done` is the only terminal status) — is not selected by the
one-shot poll at all: the SQL filter of `iter_new_or_incomplete` lists only
the never-written `error_download` / `error_transcribe` / `error_insights`
sub-statuses, not plain `error`. -/
theorem error_status_not_selected :
    c5_err_row.status = "error" ∧ c5_err_row.status ≠ "done" ∧
    iter_new_or_incomplete [c5_err_row] 1 none = [] := by
  refine ⟨rfl, by decide, by decide⟩

/-- C5 amended: after ingesting a feed, the one-shot poll selects exactly the
feed's episodes whose status is one of `new`, `downloading`, `downloaded`,
`transcribing`, `transcribed`, `analyzing`, `error_download`,
`error_transcribe`, `error_insights` — so never plain `error` — in first-seen
order, with the optional per-feed cap limiting only how many episodes are
started from `new`. -/
theorem poll_selection_spec (db : List EpRow) (fid : Nat) (maxNew : Option Nat) :
    (∀ r, r ∈ iter_new_or_incomplete db fid maxNew →
        r ∈ db ∧ r.feedId = fid ∧ r.status ∈ incomplete_statuses ∧ r.status ≠ "error") ∧
    (∀ r, r ∈ iter_new_or_incomplete db fid none ↔
        r ∈ db ∧ r.feedId = fid ∧ r.status ∈ incomplete_statuses) ∧
    ((iter_new_or_incomplete db fid maxNew).Pairwise
      (fun a b => a.firstSeenAt ≤ b.firstSeenAt)) ∧
    (∀ m, ((iter_new_or_incomplete db fid (some m)).filter
        (fun r => r.status == "new")).length =
      min m ((iter_new_or_incomplete db fid none).filter
        (fun r => r.status == "new")).length) ∧
    (∀ m, (iter_new_or_incomplete db fid (some m)).filter (fun r => !(r.status == "new")) =
      (iter_new_or_incomplete db fid none).filter (fun r => !(r.status == "new"))) := by
  have hmem_sorted : ∀ r, r ∈ List.insertionSort by_first_seen
      (db.filter fun r2 => r2.feedId == fid && incomplete_statuses.contains r2.status) ↔
      (r ∈ db ∧ r.feedId = fid ∧ r.status ∈ incomplete_statuses) := by
    intro r
    rw [List.mem_insertionSort, List.mem_filter]
    simp [and_assoc]
  have hnoerr : ∀ s : String, s ∈ incomplete_statuses → s ≠ "error" := by
    intro s hs heq
    subst heq
    simp [incomplete_statuses] at hs
  have hsel_mem : ∀ r, r ∈ iter_new_or_incomplete db fid maxNew →
      r ∈ db ∧ r.feedId = fid ∧ r.status ∈ incomplete_statuses := by
    intro r hr
    unfold iter_new_or_incomplete at hr
    cases maxNew with
    | none => exact (hmem_sorted r).1 hr
    | some m =>
        exact (hmem_sorted r).1 ((cap_new_sublist m _).subset hr)
  refine ⟨?_, ?_, ?_, ?_, ?_⟩
  · intro r hr
    obtain ⟨h1, h2, h3⟩ := hsel_mem r hr
    exact ⟨h1, h2, h3, hnoerr _ h3⟩
  · intro r
    exact hmem_sorted r
  · have hsorted : (List.insertionSort by_first_seen
        (db.filter fun r2 => r2.feedId == fid &&
          incomplete_statuses.contains r2.status)).Pairwise by_first_seen :=
      List.sorted_insertionSort by_first_seen _
    have hsorted2 := hsorted.imp (fun hab => hab)
    unfold iter_new_or_incomplete
    cases maxNew with
    | none => exact hsorted2
    | some m => exact hsorted2.sublist (cap_new_sublist m _)
  · intro m
    unfold iter_new_or_incomplete
    exact cap_new_count_new _ m
  · intro m
    unfold iter_new_or_incomplete
    exact cap_new_filter_stable _ m

/-- Closed instance of the amended C5: with a cap of 1 the selection keeps
the first `new` episode and the `downloading` one, drops the second `new`
one, and selects nothing in status `error`. -/
theorem poll_selection_spec_witness :
    c5_new1 ∈ c5_db ∧ c5_new1.feedId = 1 ∧ c5_new1.status ∈ incomplete_statuses ∧
    c5_new1.status ≠ "error" ∧
    ((iter_new_or_incomplete c5_db 1 (some 1)).filter
        (fun r => r.status == "new")).length = 1 ∧
    (iter_new_or_incomplete c5_db 1 (some 1)).filter (fun r => !(r.status == "new")) =
      (iter_new_or_incomplete c5_db 1 none).filter (fun r => !(r.status == "new")) := by
  have h := poll_selection_spec c5_db 1 (some 1)
  obtain ⟨h1, h2, h3, h4⟩ := h.1 c5_new1 (by decide)
  refine ⟨h1, h2, h3, h4, ?_, h.2.2.2.2 1⟩
  have hc := h.2.2.2.1 1
  rw [hc]
  decide

/-! ### C7: paginated listing order -/

/-- C7 counterexample: a NULL publish date is replaced by the key
`'9999-99-99'`, the maximum, so under the descending order the null-dated
episode sorts FIRST — not last as claimed: listing a feed holding a dated
episode and a null-dated episode returns the null-dated one first. -/
theorem null_pubdate_sorts_first :
    c7_null_row.pubDate = none ∧ c7_dated_row.pubDate = some "2024-01-01" ∧
    get_episodes_paginated [c7_dated_row, c7_null_row] 1 0 none =
      [c7_null_row, c7_dated_row] := by
  exact ⟨rfl, rfl, by decide⟩

/-- C7 amended: the paginated listing returns exactly the feed's episodes,
ordered by publish date descending with NULL publish dates treated as the
maximal key `'9999-99-99'` and therefore sorting first (not last), ties broken
by first-seen descending; a limit/offset pair pages through that order. -/
theorem paginated_order_spec (db : List EpRow) (fid : Nat) :
    (∀ r, r ∈ get_episodes_paginated db fid 0 none ↔ r ∈ db ∧ r.feedId = fid) ∧
    ((get_episodes_paginated db fid 0 none).Perm
      (db.filter fun r => r.feedId == fid)) ∧
    ((get_episodes_paginated db fid 0 none).Pairwise pag_order) ∧
    (∀ off l, get_episodes_paginated db fid off (some l) =
      ((get_episodes_paginated db fid 0 none).drop off).take l) := by
  refine ⟨?_, ?_, ?_, ?_⟩
  · intro r
    unfold get_episodes_paginated
    rw [List.mem_insertionSort, List.mem_filter]
    simp
  · exact List.perm_insertionSort pag_order _
  · exact List.sorted_insertionSort pag_order _
  · intro off l
    rfl

/-- Closed instance of the amended C7: both rows are listed, and offset 1
with limit 1 pages to the dated episode (the null-dated one came first). -/
theorem paginated_order_spec_witness :
    c7_null_row ∈ get_episodes_paginated [c7_dated_row, c7_null_row] 1 0 none ∧
    get_episodes_paginated [c7_dated_row, c7_null_row] 1 1 (some 1) = [c7_dated_row] := by
  have h := paginated_order_spec [c7_dated_row, c7_null_row] 1
  refine ⟨(h.1 c7_null_row).2 ⟨by decide, by decide⟩, ?_⟩
  rw [h.2.2.2 1 1]
  decide

/-! ### C6: run modes invoke exactly their stage subsets -/

lemma transcribe_body_no_insights (env : Env) (epId : Nat) (row : EpRow) (st : PState) :
    EvDelta (fun ev => ev ≠ Event.insightsTool) st
      (stOf (run_transcribe_body env epId row st)) := by
  have hmono1 : ∀ ev, (ev = Event.statusWrite epId "downloading" none ∨ isNetOrSleep ev) →
      ev ≠ Event.insightsTool := by
    rintro ev (rfl | hev)
    · intro h; cases h
    · intro h; subst h; cases hev
  have hmono2 : ∀ ev,
      (ev = Event.statusWrite epId "transcribing" none ∨ ev = Event.transcribeTool) →
      ev ≠ Event.insightsTool := by
    rintro ev (rfl | rfl) <;> intro h <;> cases h
  unfold run_transcribe_body
  have h1 := (stage_download_delta env epId row
    (noteCallback st "downloading" row.title)).mono hmono1
  have hpre0 : EvDelta (fun ev => ev ≠ Event.insightsTool) st
      (stOf (stage_download env epId row (noteCallback st "downloading" row.title))) :=
    EvDelta.trans (noteCallback_delta st "downloading" row.title (by intro h; cases h)) h1
  cases hd : stage_download env epId row (noteCallback st "downloading" row.title) with
  | error e =>
      rw [hd] at hpre0
      exact hpre0
  | ok s1 =>
      rw [hd] at hpre0
      dsimp only
      have h2 := (stage_transcribe_delta env epId row
        (noteCallback (writeStatus s1 epId "downloaded") "transcribing" row.title)).mono hmono2
      have hpre1 : EvDelta (fun ev => ev ≠ Event.insightsTool) st
          (stOf (stage_transcribe env epId row
            (noteCallback (writeStatus s1 epId "downloaded") "transcribing" row.title))) :=
        EvDelta.trans hpre0 (EvDelta.trans
          (writeStatus_delta s1 epId "downloaded" none (by intro h; cases h))
          (EvDelta.trans
            (noteCallback_delta _ "transcribing" row.title (by intro h; cases h)) h2))
      cases ht : stage_transcribe env epId row
          (noteCallback (writeStatus s1 epId "downloaded") "transcribing" row.title) with
      | error e =>
          rw [ht] at hpre1
          exact hpre1
      | ok s2 =>
          rw [ht] at hpre1
          dsimp only
          exact EvDelta.trans hpre1
            (writeStatus_delta s2 epId "transcribed" none (by intro h; cases h))

lemma insights_body_no_net (env : Env) (epId : Nat) (row : EpRow) (st : PState) :
    EvDelta (fun ev => ev ≠ Event.transcribeTool ∧ ∀ u, ev ≠ Event.netAttempt u) st
      (stOf (run_insights_body env epId row st)) := by
  have hmono3 : ∀ ev,
      (ev = Event.statusWrite epId "analyzing" none ∨ ev = Event.insightsTool) →
      ev ≠ Event.transcribeTool ∧ ∀ u, ev ≠ Event.netAttempt u := by
    rintro ev (rfl | rfl) <;> exact ⟨(by intro h; cases h), (by intro u h; cases h)⟩
  unfold run_insights_body
  have h3 := (stage_insights_delta env epId row
    (noteCallback st "analyzing" row.title)).mono hmono3
  have hpre : EvDelta (fun ev => ev ≠ Event.transcribeTool ∧ ∀ u, ev ≠ Event.netAttempt u) st
      (stOf (stage_insights env epId row (noteCallback st "analyzing" row.title))) :=
    EvDelta.trans (noteCallback_delta st "analyzing" row.title
      ⟨(by intro h; cases h), (by intro u h; cases h)⟩) h3
  cases hi : stage_insights env epId row (noteCallback st "analyzing" row.title) with
  | error e =>
      rw [hi] at hpre
      exact hpre
  | ok s3 =>
      rw [hi] at hpre
      dsimp only
      exact EvDelta.trans hpre (EvDelta.trans
        (writeStatus_delta s3 epId "done" none ⟨(by intro h; cases h), (by intro u h; cases h)⟩)
        (noteCallback_delta _ "done" row.title ⟨(by intro h; cases h), (by intro u h; cases h)⟩))

lemma run_transcribe_body_ok_shape (env : Env) (epId : Nat) (row : EpRow) (st stF : PState)
    (hb : run_transcribe_body env epId row st = .ok stF) :
    ∃ s2, stF = writeStatus s2 epId "transcribed" := by
  unfold run_transcribe_body at hb
  cases hd : stage_download env epId row (noteCallback st "downloading" row.title) with
  | error e => rw [hd] at hb; simp at hb
  | ok s1 =>
      rw [hd] at hb
      dsimp only at hb
      cases ht : stage_transcribe env epId row
          (noteCallback (writeStatus s1 epId "downloaded") "transcribing" row.title) with
      | error e => rw [ht] at hb; simp at hb
      | ok s2 =>
          rw [ht] at hb
          dsimp only at hb
          cases hb
          exact ⟨s2, rfl⟩

/-- C6: the three run modes invoke exactly their stage subsets: full mode is
the full pipeline; transcribe-only never invokes the insights tool and on
success leaves the stored status `transcribed`; insights-only performs no
network fetch and never invokes the transcription tool; and invoking
insights-only on an episode whose transcript does not exist is a precondition
failure — `(false, message)` with the state unchanged. -/
theorem mode_stage_subsets (env : Env) (st : PState) (epId : Nat) :
    (process_with_mode .full env st epId = process_single_episode env st epId) ∧
    (∀ d, (process_with_mode .transcribe env st epId).2.events = st.events ++ d →
        Event.insightsTool ∉ d) ∧
    ((process_with_mode .transcribe env st epId).1.1 = true →
        ∀ r ∈ (process_with_mode .transcribe env st epId).2.db, r.id = epId →
          r.status = "transcribed") ∧
    (∀ d, (process_with_mode .insights env st epId).2.events = st.events ++ d →
        Event.transcribeTool ∉ d ∧ ∀ u, Event.netAttempt u ∉ d) ∧
    (∀ row, get_episode_by_id? st.db epId = some row →
        st.fs.contains row.transcriptPath = false →
        (process_with_mode .insights env st epId).1.1 = false ∧
        (process_with_mode .insights env st epId).2 = st) := by
  refine ⟨rfl, ?_, ?_, ?_, ?_⟩
  · intro d hd
    have hdelta : EvDelta (fun ev => ev ≠ Event.insightsTool) st
        (process_with_mode .transcribe env st epId).2 := by
      show EvDelta _ st (process_transcribe_only env st epId).2
      unfold process_transcribe_only
      cases hg : get_episode_by_id? st.db epId with
      | none =>
          dsimp only
          refine ⟨[Event.statusWrite epId "error" (some (key_error_msg epId))],
            by simp [writeStatus], ?_⟩
          intro ev hev
          simp only [List.mem_cons, List.not_mem_nil, or_false] at hev
          subst hev
          intro h
          cases h
      | some row =>
          dsimp only
          have hbody := transcribe_body_no_insights env epId row st
          cases hb : run_transcribe_body env epId row st with
          | ok stF =>
              rw [hb] at hbody
              dsimp only
              exact hbody
          | error e =>
              obtain ⟨m, stE⟩ := e
              rw [hb] at hbody
              dsimp only
              refine EvDelta.trans hbody ⟨[Event.statusWrite epId "error" (some m)],
                by simp [writeStatus, stOf], ?_⟩
              intro ev hev
              simp only [List.mem_cons, List.not_mem_nil, or_false] at hev
              subst hev
              intro h
              cases h
    obtain ⟨d2, hd2, hp⟩ := hdelta
    have hdd : d = d2 := List.append_cancel_left (hd.symm.trans hd2)
    subst hdd
    intro hmem
    exact hp _ hmem rfl
  · intro hs r hr hid
    unfold process_with_mode process_transcribe_only at hs hr
    cases hg : get_episode_by_id? st.db epId with
    | none =>
        rw [hg] at hs
        dsimp only at hs
        exact absurd hs (by decide)
    | some row =>
        rw [hg] at hs hr
        dsimp only at hs hr
        cases hb : run_transcribe_body env epId row st with
        | error e =>
            obtain ⟨m, stE⟩ := e
            rw [hb] at hs
            dsimp only at hs
            exact absurd hs (by decide)
        | ok stF =>
            rw [hb] at hr
            dsimp only at hr
            obtain ⟨s2, rfl⟩ := run_transcribe_body_ok_shape env epId row st stF hb
            exact (update_row_fields hr hid).1
  · intro d hd
    have hdelta : EvDelta (fun ev => ev ≠ Event.transcribeTool ∧
        ∀ u, ev ≠ Event.netAttempt u) st (process_with_mode .insights env st epId).2 := by
      show EvDelta _ st (process_insights_only env st epId).2
      unfold process_insights_only
      cases hg : get_episode_by_id? st.db epId with
      | none =>
          dsimp only
          exact EvDelta.rfl st
      | some row =>
          dsimp only
          by_cases hc : st.fs.contains row.transcriptPath = true
          · rw [if_pos hc]
            have hbody := insights_body_no_net env epId row st
            cases hb : run_insights_body env epId row st with
            | ok stF =>
                rw [hb] at hbody
                dsimp only
                exact hbody
            | error e =>
                obtain ⟨m, stE⟩ := e
                rw [hb] at hbody
                dsimp only
                refine EvDelta.trans hbody ⟨[Event.statusWrite epId "error" (some m)],
                  by simp [writeStatus, stOf], ?_⟩
                intro ev hev
                simp only [List.mem_cons, List.not_mem_nil, or_false] at hev
                subst hev
                exact ⟨(by intro h; cases h), (by intro u h; cases h)⟩
          · rw [if_neg hc]
            exact EvDelta.rfl st
    obtain ⟨d2, hd2, hp⟩ := hdelta
    have hdd : d = d2 := List.append_cancel_left (hd.symm.trans hd2)
    subst hdd
    constructor
    · intro hmem
      exact (hp _ hmem).1 rfl
    · intro u hmem
      exact (hp _ hmem).2 u rfl
  · intro row hg hc
    unfold process_with_mode process_insights_only
    rw [hg]
    dsimp only
    rw [if_neg (by simpa using hc)]
    exact ⟨rfl, rfl⟩

/-- Closed instance of C6: on the fully-materialised fixture the transcribe
run's trace delta holds no insights-tool event and ends at status
`transcribed`; on the empty filesystem insights-only is a precondition
failure leaving the state untouched. -/
theorem mode_stage_subsets_witness :
    process_with_mode ProcessingMode.full w_env w_st 4 = process_single_episode w_env w_st 4 ∧
    Event.insightsTool ∉
      ([Event.callbackNote "downloading" "T", Event.statusWrite 4 "downloaded" none,
        Event.callbackNote "transcribing" "T",
        Event.statusWrite 4 "transcribed" none] : List Event) ∧
    ({ w_row with status := "transcribed", error := none } : EpRow).status = "transcribed" ∧
    (process_with_mode ProcessingMode.insights w_env w_st_empty 4).1.1 = false ∧
    (process_with_mode ProcessingMode.insights w_env w_st_empty 4).2 = w_st_empty := by
  have h := mode_stage_subsets w_env w_st 4
  have h2 := mode_stage_subsets w_env w_st_empty 4
  refine ⟨h.1, ?_, ?_, ?_, ?_⟩
  · exact h.2.1 _ (by decide)
  · exact h.2.2.1 (by decide) { w_row with status := "transcribed", error := none }
      (by decide) (by decide)
  · exact (h2.2.2.2.2 w_row (by decide) (by decide)).1
  · exact (h2.2.2.2.2 w_row (by decide) (by decide)).2

/-! ### C9: bulk selection parsing -/

/-- C9: `"1,3-5,8"` against 10 episodes yields exactly the 0-based indices
`[0, 2, 3, 4, 7]`; `"all"` yields every index below `maxIndex`; an
out-of-range index (`"11"` against 10) fails with a range error; empty input
fails; and every successful parse returns a strictly sorted list of unique
in-range 0-based indices. -/
theorem selection_parsing_spec :
    parse_episode_selection "1,3-5,8" 10 = .ok [0, 2, 3, 4, 7] ∧
    (∀ n : Nat, parse_episode_selection "all" n =
        .ok (List.map Int.ofNat (List.range n))) ∧
    parse_episode_selection "11" 10 = .error "Episode number out of range: 11" ∧
    parse_episode_selection "" 10 = .error "Empty input" ∧
    (∀ (s : String) (n : Nat) (r : List Int), parse_episode_selection s n = .ok r →
        r.Pairwise (· < ·) ∧ ∀ i ∈ r, 0 ≤ i ∧ i < (n : Int)) := by
  refine ⟨by decide, ?_, by decide, by decide, ?_⟩
  · intro n
    rfl
  · intro s n r hok
    unfold parse_episode_selection parse_selection_of at hok
    by_cases h1 : ((py_strip s.data).map Char.toLower).isEmpty = true
    · rw [if_pos h1] at hok
      exact absurd hok (by simp)
    · rw [if_neg h1] at hok
      by_cases h2 : (py_strip s.data).map Char.toLower = "all".data
      · rw [if_pos h2] at hok
        have hr : r = List.map Int.ofNat (List.range n) := by
          cases hok
          rfl
        subst hr
        constructor
        · refine List.Pairwise.map Int.ofNat ?_ (List.pairwise_lt_range n)
          intro a b hab
          simp only [Int.ofNat_eq_natCast]
          omega
        · intro i hi
          simp only [List.mem_map, List.mem_range] at hi
          obtain ⟨k, hk, rfl⟩ := hi
          refine ⟨?_, ?_⟩ <;> simp only [Int.ofNat_eq_natCast] <;> omega
      · rw [if_neg h2] at hok
        cases hc : collect_parts (((py_strip s.data).map Char.toLower).splitOn ',') with
        | error e =>
            rw [hc] at hok
            exact absurd hok (by simp)
        | ok indices =>
            rw [hc] at hok
            dsimp only at hok
            cases hf : (List.insertionSort (fun a b => a ≤ b) indices.dedup).find?
                (fun i => decide (i < 0) || decide ((n : Int) ≤ i)) with
            | some i =>
                rw [hf] at hok
                exact absurd hok (by simp)
            | none =>
                rw [hf] at hok
                have hr : r = List.insertionSort (fun a b => a ≤ b) indices.dedup := by
                  cases hok
                  rfl
                subst hr
                have hsorted : (List.insertionSort (fun a b => a ≤ b)
                    indices.dedup).Pairwise (fun a b => a ≤ b) :=
                  List.sorted_insertionSort _ _
                have hnodup : (List.insertionSort (fun a b => a ≤ b)
                    indices.dedup).Nodup :=
                  (List.perm_insertionSort _ _).nodup_iff.2 (List.nodup_dedup _)
                refine ⟨List.Sorted.lt_of_le hsorted hnodup, ?_⟩
                intro i hi
                have hnotp := List.find?_eq_none.1 hf i hi
                simp only [Bool.or_eq_true, decide_eq_true_eq, not_or] at hnotp
                omega

/-- Closed instance of C9: the parsed `"1,3-5,8"` selection against 10
episodes is `[0, 2, 3, 4, 7]`, and its member 7 is in range. -/
theorem selection_parsing_spec_witness :
    parse_episode_selection "1,3-5,8" 10 = .ok [0, 2, 3, 4, 7] ∧
    (0 : Int) ≤ 7 ∧ (7 : Int) < (10 : Int) := by
  refine ⟨selection_parsing_spec.1, ?_⟩
  exact (selection_parsing_spec.2.2.2.2 "1,3-5,8" 10 [0, 2, 3, 4, 7]
    selection_parsing_spec.1).2 7 (by decide)

/-! ### C8: filename sanitisation -/

lemma head?_dropWhile_false {p : Char → Bool} {l : List Char} {c : Char}
    (h : (l.dropWhile p).head? = some c) : p c = false := by
  have hw := List.head?_dropWhile_not p l
  rw [h] at hw
  exact hw

lemma suffix_getLast? {l1 l2 : List Char} (h : List.IsSuffix l1 l2) (hne : l1 ≠ []) :
    l1.getLast? = l2.getLast? := by
  obtain ⟨t, rfl⟩ := h
  rw [List.getLast?_append]
  cases hg : l1.getLast? with
  | none =>
      rw [List.getLast?_eq_head?_reverse] at hg
      have : l1.reverse = [] := by
        cases hrev : l1.reverse with
        | nil => rfl
        | cons a as => rw [hrev] at hg; cases hg
      exact absurd (by simpa using congrArg List.reverse this) hne
  | some x => rfl

lemma mem_double_strip {p : Char → Bool} {l : List Char} {c : Char}
    (h : c ∈ ((l.dropWhile p).reverse.dropWhile p).reverse) : c ∈ l := by
  rw [List.mem_reverse] at h
  have h2 := (List.dropWhile_sublist p).subset h
  rw [List.mem_reverse] at h2
  exact (List.dropWhile_sublist p).subset h2

lemma mem_strip_chars {sep : List Char} {l : List Char} {c : Char}
    (h : c ∈ strip_chars sep l) : c ∈ l :=
  mem_double_strip h

lemma mem_py_strip {l : List Char} {c : Char} (h : c ∈ py_strip l) : c ∈ l :=
  mem_double_strip h

lemma mem_py_rstrip {l : List Char} {c : Char} (h : c ∈ py_rstrip l) : c ∈ l := by
  unfold py_rstrip at h
  rw [List.mem_reverse] at h
  have h2 := (List.dropWhile_sublist is_py_space).subset h
  rw [List.mem_reverse] at h2
  exact h2

lemma mem_collapse_go {c : Char} :
    ∀ (l : List Char) (b : Bool), c ∈ collapse_go b l → c = ' ' ∨ c ∈ l := by
  intro l
  induction l with
  | nil => intro b h; cases h
  | cons a as ih =>
      intro b h
      unfold collapse_go at h
      by_cases hsp : is_py_space a = true
      · rw [if_pos hsp] at h
        cases b with
        | true =>
            rcases ih true (by simpa using h) with h2 | h2
            · exact Or.inl h2
            · exact Or.inr (List.mem_cons_of_mem a h2)
        | false =>
            simp only [if_neg, Bool.false_eq_true, not_false_eq_true, List.mem_cons] at h
            rcases h with rfl | h
            · exact Or.inl rfl
            · rcases ih true h with h2 | h2
              · exact Or.inl h2
              · exact Or.inr (List.mem_cons_of_mem a h2)
      · rw [if_neg hsp] at h
        rcases List.mem_cons.1 h with rfl | h2
        · exact Or.inr (List.mem_cons.2 (Or.inl rfl))
        · rcases ih false h2 with h3 | h3
          · exact Or.inl h3
          · exact Or.inr (List.mem_cons_of_mem a h3)

lemma strip_chars_getLast {sep : List Char} {l : List Char} {c : Char}
    (h : (strip_chars sep l).getLast? = some c) : sep.contains c = false := by
  unfold strip_chars at h
  rw [List.getLast?_reverse] at h
  exact head?_dropWhile_false h

lemma strip_chars_head {sep : List Char} {l : List Char} {c : Char}
    (h : (strip_chars sep l).head? = some c) : sep.contains c = false := by
  unfold strip_chars at h
  rw [List.head?_reverse] at h
  have hBne : (l.dropWhile (fun c2 => sep.contains c2)).reverse.dropWhile
      (fun c2 => sep.contains c2) ≠ [] := by
    intro hnil
    rw [hnil] at h
    cases h
  have hsuf := List.dropWhile_suffix (l := (l.dropWhile (fun c2 => sep.contains c2)).reverse)
    (fun c2 => sep.contains c2)
  have heq := suffix_getLast? hsuf hBne
  rw [heq, List.getLast?_reverse] at h
  exact head?_dropWhile_false h

lemma py_rstrip_head {l : List Char} {c : Char} (hh : l.head? = some c)
    (hc : is_py_space c = false) : (py_rstrip l).head? = some c := by
  unfold py_rstrip
  rw [List.head?_reverse]
  have hBne : l.reverse.dropWhile is_py_space ≠ [] := by
    intro hnil
    have hall := List.dropWhile_eq_nil_iff.1 hnil
    have hcmem : c ∈ l.reverse := by
      rw [List.mem_reverse]
      exact List.mem_of_mem_head? (by rw [hh]; rfl)
    have := hall c hcmem
    rw [hc] at this
    cases this
  have heq := suffix_getLast? (List.dropWhile_suffix (l := l.reverse) is_py_space) hBne
  rw [heq, List.getLast?_reverse]
  exact hh

lemma contains_seps_eq_is_sep (c : Char) :
    ([' ', '-', '_'] : List Char).contains c = is_sep c := by
  simp only [is_sep, List.contains, List.elem]
  cases h1 : c == ' ' <;> cases h2 : c == '-' <;> cases h3 : c == '_' <;> simp [h1, h2, h3]

lemma sanitize_mem_safe (s : String) : ∀ c ∈ (sanitize s).data, is_safe_char c = true := by
  intro c hc
  unfold sanitize at hc
  by_cases hempty : (sanitize_chars_list s).isEmpty = true
  · rw [if_pos hempty] at hc
    revert hc
    revert c
    decide
  · rw [if_neg hempty] at hc
    have hc2 : c ∈ sanitize_chars_list s := hc
    unfold sanitize_chars_list at hc2
    have hc3 := mem_py_strip (mem_strip_chars hc2)
    rcases mem_collapse_go _ false hc3 with rfl | hc4
    · decide
    · exact (List.mem_filter.1 hc4).2

lemma sanitize_ne_nil (s : String) : (sanitize s).data ≠ [] := by
  unfold sanitize
  by_cases hempty : (sanitize_chars_list s).isEmpty = true
  · rw [if_pos hempty]
    decide
  · rw [if_neg hempty]
    intro h
    exact hempty (by simpa [List.isEmpty_iff] using h)

lemma sanitize_head_not_sep (s : String) {c : Char}
    (h : (sanitize s).data.head? = some c) : is_sep c = false := by
  unfold sanitize at h
  by_cases hempty : (sanitize_chars_list s).isEmpty = true
  · rw [if_pos hempty] at h
    cases h
    decide
  · rw [if_neg hempty] at h
    rw [← contains_seps_eq_is_sep]
    exact strip_chars_head h

lemma sanitize_getLast_not_sep (s : String) {c : Char}
    (h : (sanitize s).data.getLast? = some c) : is_sep c = false := by
  unfold sanitize at h
  by_cases hempty : (sanitize_chars_list s).isEmpty = true
  · rw [if_pos hempty] at h
    have : c = 'd' := by
      have : (("untitled" : String).data.getLast? = some 'd') := by decide
      rw [this] at h
      cases h
      rfl
    subst this
    decide
  · rw [if_neg hempty] at h
    rw [← contains_seps_eq_is_sep]
    exact strip_chars_getLast h

lemma safe_not_sep_not_space {c : Char} (hsafe : is_safe_char c = true)
    (hsep : is_sep c = false) : is_py_space c = false := by
  by_cases hsp : is_py_space c = true
  · exfalso
    simp only [is_py_space, py_whitespace, List.contains, List.elem] at hsp
    have hmem : c = ' ' ∨ c = '\t' ∨ c = '\n' ∨ c = '\r' ∨ c = '\x0b' ∨ c = '\x0c' := by
      rcases h1 : c == ' ' with _ | _
      · rcases h2 : c == '\t' with _ | _
        · rcases h3 : c == '\n' with _ | _
          · rcases h4 : c == '\r' with _ | _
            · rcases h5 : c == '\x0b' with _ | _
              · rcases h6 : c == '\x0c' with _ | _
                · rw [h1, h2, h3, h4, h5, h6] at hsp
                  cases hsp
                · exact Or.inr (Or.inr (Or.inr (Or.inr (Or.inr (by simpa using h6)))))
              · exact Or.inr (Or.inr (Or.inr (Or.inr (Or.inl (by simpa using h5)))))
            · exact Or.inr (Or.inr (Or.inr (Or.inl (by simpa using h4))))
          · exact Or.inr (Or.inr (Or.inl (by simpa using h3)))
        · exact Or.inr (Or.inl (by simpa using h2))
      · exact Or.inl (by simpa using h1)
    rcases hmem with rfl | rfl | rfl | rfl | rfl | rfl
    · simp [is_sep] at hsep
    · simp [is_safe_char] at hsafe
    · simp [is_safe_char] at hsafe
    · simp [is_safe_char] at hsafe
    · simp [is_safe_char] at hsafe
    · simp [is_safe_char] at hsafe
  · exact Bool.eq_false_iff.2 hsp

lemma hex_digit_is_hex : ∀ n, n < 16 → is_hex_char (hex_digit n) = true := by decide

lemma mem_hex8_hex {w : Nat} {c : Char} (h : c ∈ hex8 w) : is_hex_char c = true := by
  unfold hex8 at h
  obtain ⟨i, _, rfl⟩ := List.mem_map.1 h
  exact hex_digit_is_hex _ (Nat.mod_lt _ (by norm_num))

lemma mem_hexdigest_hex {m : List Nat} {c : Char} (h : c ∈ (hexdigest m).data) :
    is_hex_char c = true := by
  unfold hexdigest at h
  rcases hst : sha1_state m with ⟨h0, h1, h2, h3, h4⟩
  rw [hst] at h
  dsimp only at h
  simp only [List.mem_append] at h
  rcases h with ((((h | h) | h) | h) | h) <;> exact mem_hex8_hex h

lemma hexdigest_length (m : List Nat) : (hexdigest m).data.length = 40 := by
  unfold hexdigest
  rcases hst : sha1_state m with ⟨h0, h1, h2, h3, h4⟩
  simp [hex8]

lemma short_hash_length (t : String) : (short_hash t).length = 6 := by
  unfold short_hash
  show ((hexdigest (utf8_bytes t)).data.take 6).length = 6
  rw [List.length_take, hexdigest_length]
  decide

lemma mem_short_hash_hex {t : String} {c : Char} (h : c ∈ (short_hash t).data) :
    is_hex_char c = true := by
  unfold short_hash at h
  exact mem_hexdigest_hex ((List.take_sublist 6 _).subset h)

lemma hex_not_sep {c : Char} (h : is_hex_char c = true) : is_sep c = false := by
  by_cases hs : is_sep c = true
  · exfalso
    simp only [is_sep, Bool.or_eq_true, beq_iff_eq] at hs
    rcases hs with (rfl | rfl) | rfl <;> simp [is_hex_char] at h
  · exact Bool.eq_false_iff.2 hs

lemma hex_is_safe {c : Char} (h : is_hex_char c = true) : is_safe_char c = true := by
  simp only [is_hex_char, Bool.or_eq_true, decide_eq_true_eq] at h
  simp only [is_safe_char, Bool.or_eq_true, decide_eq_true_eq]
  rcases h with h | h
  · exact Or.inl (Or.inl (Or.inl (Or.inr h)))
  · exact Or.inl (Or.inl (Or.inl (Or.inl (Or.inr ⟨h.1, by omega⟩))))

/-- C8: for every input, `safe_name` yields a non-empty string of characters
from `[A-Za-z0-9 _-]` with no leading or trailing separator; it is a pure
function of its input; when the sanitised name exceeds 100 characters the
result is the right-stripped 92-character prefix plus a dash and a
6-character lowercase-hex fingerprint — computed from the SANITISED name,
not from the full original string (see the counterexample
`safe_name_not_injective`); otherwise the result is the sanitised name. -/
theorem safe_name_spec (s : String) :
    (safe_name s).data ≠ [] ∧
    (∀ c ∈ (safe_name s).data, is_safe_char c = true) ∧
    (∀ c, (safe_name s).data.head? = some c → is_sep c = false) ∧
    (∀ c, (safe_name s).data.getLast? = some c → is_sep c = false) ∧
    (100 < (sanitize s).length →
      safe_name s =
        String.mk (py_rstrip ((sanitize s).data.take 92) ++
          '-' :: (short_hash (sanitize s)).data) ∧
      (short_hash (sanitize s)).length = 6 ∧
      ∀ c ∈ (short_hash (sanitize s)).data, is_hex_char c = true) ∧
    ((sanitize s).length ≤ 100 → safe_name s = sanitize s) := by
  have hsafe := sanitize_mem_safe s
  have hne := sanitize_ne_nil s
  by_cases hlen : 100 < (sanitize s).length
  · have heq : safe_name s =
        String.mk (py_rstrip ((sanitize s).data.take 92) ++
          '-' :: (short_hash (sanitize s)).data) := by
      unfold safe_name truncate_name
      rw [if_pos hlen]
    have hhashne : (short_hash (sanitize s)).data ≠ [] := by
      intro h
      have h6 := short_hash_length (sanitize s)
      rw [show (short_hash (sanitize s)).length
            = (short_hash (sanitize s)).data.length from rfl, h] at h6
      cases h6
    have hdata : (safe_name s).data =
        py_rstrip ((sanitize s).data.take 92) ++
          '-' :: (short_hash (sanitize s)).data := by rw [heq]
    obtain ⟨c0, rest, hcons⟩ : ∃ c0 rest, (sanitize s).data = c0 :: rest := by
      cases hd : (sanitize s).data with
      | nil => exact absurd hd hne
      | cons a as => exact ⟨a, as, rfl⟩
    have hc0safe : is_safe_char c0 = true :=
      hsafe c0 (by rw [hcons]; exact List.mem_cons.2 (Or.inl rfl))
    have hc0sep : is_sep c0 = false := by
      apply sanitize_head_not_sep s
      rw [hcons]
      rfl
    have hc0sp : is_py_space c0 = false := safe_not_sep_not_space hc0safe hc0sep
    have htake : (sanitize s).data.take 92 = c0 :: rest.take 91 := by
      rw [hcons]
      rfl
    have hL1head : (py_rstrip ((sanitize s).data.take 92)).head? = some c0 := by
      apply py_rstrip_head _ hc0sp
      rw [htake]
      rfl
    refine ⟨?_, ?_, ?_, ?_, fun _ => ⟨heq, short_hash_length _, ?_⟩, fun hle => by omega⟩
    · rw [hdata]
      simp
    · intro c hc
      rw [hdata] at hc
      rcases List.mem_append.1 hc with hc1 | hc2
      · exact hsafe c ((List.take_sublist 92 _).subset (mem_py_rstrip hc1))
      · rcases List.mem_cons.1 hc2 with rfl | hc3
        · decide
        · exact hex_is_safe (mem_short_hash_hex hc3)
    · intro c hc
      rw [hdata] at hc
      cases hL1 : py_rstrip ((sanitize s).data.take 92) with
      | nil =>
          rw [hL1] at hL1head
          cases hL1head
      | cons a as =>
          rw [hL1] at hL1head hc
          have ha : a = c0 := by
            have : some a = some c0 := hL1head
            cases this
            rfl
          have hch : c = a := by
            have : some c = some a := hc.symm
            cases this
            rfl
          rw [hch, ha]
          exact hc0sep
    · intro c hc
      rw [hdata] at hc
      have hsuf : List.IsSuffix (short_hash (sanitize s)).data
          (py_rstrip ((sanitize s).data.take 92) ++
            '-' :: (short_hash (sanitize s)).data) := by
        refine ⟨py_rstrip ((sanitize s).data.take 92) ++ ['-'], ?_⟩
        simp
      rw [← suffix_getLast? hsuf hhashne] at hc
      exact hex_not_sep (mem_short_hash_hex (List.mem_of_getLast?_eq_some hc))
    · intro c hc
      exact mem_short_hash_hex hc
  · have heq : safe_name s = sanitize s := by
      unfold safe_name truncate_name
      rw [if_neg hlen]
    refine ⟨?_, ?_, ?_, ?_, fun hgt => absurd hgt hlen, fun _ => heq⟩
    · rw [heq]
      exact hne
    · intro c hc
      rw [heq] at hc
      exact hsafe c hc
    · intro c hc
      rw [heq] at hc
      exact sanitize_head_not_sep s hc
    · intro c hc
      rw [heq] at hc
      exact sanitize_getLast_not_sep s hc

/-- C8 witness: on a 150-character clean title the truncation branch fires and
the result is the 92-character prefix plus the dash-separated 6-character
fingerprint of the sanitised name. -/
theorem safe_name_spec_witness :
    safe_name c8_w =
      String.mk (py_rstrip ((sanitize c8_w).data.take 92) ++
        '-' :: (short_hash (sanitize c8_w)).data) ∧
    (short_hash (sanitize c8_w)).length = 6 :=
  ⟨((safe_name_spec c8_w).2.2.2.2.1 (by decide)).1,
   ((safe_name_spec c8_w).2.2.2.2.1 (by decide)).2.1⟩

/-- C8 counterexample: two distinct inputs whose sanitised forms coincide and
exceed 100 characters receive the SAME truncated-plus-fingerprint name,
because the fingerprint hashes the sanitised name rather than the full
original string — so the form is not unique per distinct input. -/
theorem safe_name_not_injective :
    c8_x ≠ c8_y ∧ sanitize c8_x = sanitize c8_y ∧ 100 < (sanitize c8_x).length ∧
      safe_name c8_x = safe_name c8_y := by
  have h : sanitize c8_x = sanitize c8_y := by decide
  refine ⟨by decide, h, by decide, ?_⟩
  show truncate_name (sanitize c8_x) 100 = truncate_name (sanitize c8_y) 100
  rw [h]

end PodcastInsights
